import Mathlib

/-!
Shallow embedding of the storage/indexing/execution core of the mini RDBMS
(src/engine/storage.py, src/engine/index.py, src/engine/database.py,
src/engine/executor.py, src/parser/parser.py data declarations).

Python runtime values are modelled by the closed tagged union `Value`;
Python floats are modelled as rationals (no claim in this development
depends on floating-point rounding).  Python exceptions are modelled by
the `PyErr` type and `Except PyErr`-valued functions; each constructor
corresponds to one family of raise sites in the source.  Python dicts are
modelled as insertion-ordered association lists with unique keys, with
dict assignment keeping the position of an existing key.
-/

namespace MiniRDBMS

/-- Errors raised by the Python source.  `valueErr` covers generic
ValueError sites (unknown table, duplicate index name, bad enum string),
`nullViolation`, `typeMismatch` and `duplicateKey` are the three
ValueError messages raised by schema validation and the uniqueness check,
`typeErr` is TypeError from an undefined comparison, `idxErr` is
IndexError from an out-of-range list access, `attrErr` is AttributeError
from using None as a B-tree node, `recursionErr` models the Python
recursion limit (the fuel of recursive tree functions). -/
inductive PyErr where
  | valueErr (msg : String)
  | nullViolation (col : String)
  | typeMismatch (col : String)
  | duplicateKey (col : String)
  | typeErr
  | idxErr
  | attrErr
  | recursionErr
deriving DecidableEq, Repr

/-- Tagged runtime value: Python int, float, str, bool, None. -/
inductive Value where
  | intV (n : Int)
  | floatV (q : Rat)
  | strV (s : String)
  | boolV (b : Bool)
  | nullV
deriving DecidableEq, Repr

/-- Numeric view of a value: Python treats bool as an int (True is 1,
False is 0) and compares int and float numerically. -/
def numView : Value → Option Rat
  | .intV n => some (n : Rat)
  | .floatV q => some q
  | .boolV b => some (if b then 1 else 0)
  | _ => none

def isStr : Value → Bool
  | .strV _ => true
  | _ => false

/-- Python string comparison: lexicographic on code points. -/
def charListLt : List Char → List Char → Bool
  | [], [] => false
  | [], _ :: _ => true
  | _ :: _, [] => false
  | a :: as, b :: bs => if a < b then true else if b < a then false else charListLt as bs

/-- Python `==`: numeric values compare numerically (bool included),
strings by content, None equals only None; values of incompatible kinds
compare unequal.  `==` never raises. -/
def pyEq (a b : Value) : Bool :=
  match numView a, numView b with
  | some x, some y => decide (x = y)
  | _, _ =>
    match a, b with
    | .strV s, .strV t => decide (s = t)
    | .nullV, .nullV => true
    | _, _ => false

/-- Two values admit an order comparison (`<`, `>`, `<=`, `>=`) exactly
when both are numeric (int/float/bool) or both are strings; any other
pair raises TypeError in Python. -/
def comparableB (a b : Value) : Bool :=
  ((numView a).isSome && (numView b).isSome) || (isStr a && isStr b)

/-- Python `a < b`. -/
def pyLt (a b : Value) : Except PyErr Bool :=
  match numView a, numView b with
  | some x, some y => .ok (decide (x < y))
  | _, _ =>
    match a, b with
    | .strV s, .strV t => .ok (charListLt s.toList t.toList)
    | _, _ => .error .typeErr

/-- Python `a > b`. -/
def pyGt (a b : Value) : Except PyErr Bool := pyLt b a

/-- Python `a <= b`. -/
def pyLe (a b : Value) : Except PyErr Bool :=
  match numView a, numView b with
  | some x, some y => .ok (decide (x ≤ y))
  | _, _ =>
    match a, b with
    | .strV s, .strV t => .ok (charListLt s.toList t.toList || decide (s = t))
    | _, _ => .error .typeErr

/-- Python `a >= b`. -/
def pyGe (a b : Value) : Except PyErr Bool := pyLe b a

/-- Insertion-ordered association list standing for a Python dict keyed by
strings. -/
def alistGet {α : Type} : List (String × α) → String → Option α
  | [], _ => none
  | (k, v) :: rest, key => if k = key then some v else alistGet rest key

/-- Python dict assignment: an existing key keeps its position, a new key
is appended at the end. -/
def alistSet {α : Type} : List (String × α) → String → α → List (String × α)
  | [], key, val => [(key, val)]
  | (k, v) :: rest, key, val =>
    if k = key then (k, val) :: rest else (k, v) :: alistSet rest key val

abbrev Dict := List (String × Value)

/-- Row from storage.py: a dict from column name to value. -/
structure Row where
  data : Dict
deriving DecidableEq, Repr

/-- Row.get: dict .get, returning None (nullV) for a missing column. -/
def Row.get (r : Row) (c : String) : Value := (alistGet r.data c).getD .nullV

/-- Row.set: in-place dict assignment. -/
def Row.set (r : Row) (c : String) (v : Value) : Row := ⟨alistSet r.data c v⟩

/-- DataType from parser.py. -/
inductive DataType where
  | INT
  | TEXT
  | FLOAT
  | BOOL
deriving DecidableEq, Repr

/-- ConstraintType from parser.py. -/
inductive ConstraintType where
  | PRIMARY_KEY
  | UNIQUE
  | NOT_NULL
deriving DecidableEq, Repr

/-- Column from parser.py. -/
structure Column where
  name : String
  data_type : DataType
  constraints : List ConstraintType
deriving DecidableEq, Repr

/-- TableSchema from storage.py. -/
structure TableSchema where
  name : String
  columns : List Column
  primary_key : Option String
deriving DecidableEq, Repr

/-- TableSchema.get_column: first column with the given name. -/
def TableSchema.get_column (s : TableSchema) (n : String) : Option Column :=
  s.columns.find? (fun c => c.name == n)

/-- TableSchema._validate_type.  Python isinstance makes bool a subtype of
int, so a bool passes for INT and FLOAT, and an int passes for FLOAT. -/
def validateType (v : Value) (dt : DataType) : Bool :=
  match dt with
  | .INT => match v with | .intV _ => true | .boolV _ => true | _ => false
  | .FLOAT => match v with | .intV _ => true | .floatV _ => true | .boolV _ => true | _ => false
  | .TEXT => match v with | .strV _ => true | _ => false
  | .BOOL => match v with | .boolV _ => true | _ => false

/-- First phase of TableSchema.validate_row: every NOT_NULL column must be
present in the row. -/
def checkRequired (d : Dict) : List Column → Except PyErr Unit
  | [] => .ok ()
  | c :: rest =>
    if c.constraints.contains ConstraintType.NOT_NULL && (alistGet d c.name).isNone then
      .error (.nullViolation c.name)
    else checkRequired d rest

/-- Second phase of TableSchema.validate_row: every supplied value must
match the declared type of its column (unknown columns are skipped). -/
def checkTypes (s : TableSchema) : Dict → Except PyErr Unit
  | [] => .ok ()
  | (k, v) :: rest =>
    match s.get_column k with
    | some col =>
      if validateType v col.data_type then checkTypes s rest
      else .error (.typeMismatch k)
    | none => checkTypes s rest

/-- TableSchema.validate_row. -/
def validateRow (s : TableSchema) (r : Row) : Except PyErr Unit := do
  checkRequired r.data s.columns
  checkTypes s r.data

/-- Table from storage.py. -/
structure Table where
  schema : TableSchema
  rows : List Row
  next_row_id : Int
deriving DecidableEq, Repr

def Table.new (s : TableSchema) : Table := ⟨s, [], 1⟩

/-- Inner loop of Table._check_unique_constraints: does some existing row
hold an equal value (Python ==) in the given column? -/
def rowsHoldDup (colName : String) (newVal : Value) : List Row → Bool
  | [] => false
  | r :: rest =>
    (match alistGet r.data colName with
     | some w => pyEq w newVal
     | none => false) || rowsHoldDup colName newVal rest

/-- Table._check_unique_constraints: scan schema columns carrying UNIQUE or
PRIMARY_KEY and raise on the first duplicate. -/
def checkUniqueCols (rows : List Row) (newRow : Row) : List Column → Except PyErr Unit
  | [] => .ok ()
  | c :: rest =>
    if c.constraints.contains ConstraintType.UNIQUE ||
       c.constraints.contains ConstraintType.PRIMARY_KEY then
      match alistGet newRow.data c.name with
      | some nv =>
        if rowsHoldDup c.name nv rows then .error (.duplicateKey c.name)
        else checkUniqueCols rows newRow rest
      | none => checkUniqueCols rows newRow rest
    else checkUniqueCols rows newRow rest

/-- The row after the row-id assignment step of Table.insert: a row
already carrying a row_id key is left alone, otherwise the current
counter value is written into it. -/
def insertRowWithId (t : Table) (r : Row) : Row :=
  if (alistGet r.data "row_id").isSome then r
  else ⟨alistSet r.data "row_id" (.intV t.next_row_id)⟩

/-- The table after the row-id assignment step of Table.insert: the
counter is consumed exactly when the row lacked a row_id. -/
def insertTableAfterId (t : Table) (r : Row) : Table :=
  if (alistGet r.data "row_id").isSome then t
  else { t with next_row_id := t.next_row_id + 1 }

/-- Table.insert.  Mirrors the source order: validate the row, then assign
`row_id = next_row_id` and increment the counter if the row does not
already carry one, then check uniqueness, then append.  The returned
table reflects the in-place mutations performed before a raise, so a
failed uniqueness check still leaves the counter incremented. -/
def Table.insert (t : Table) (r : Row) : Table × Except PyErr Value :=
  match validateRow t.schema r with
  | .error e => (t, .error e)
  | .ok _ =>
    let r2 : Row := insertRowWithId t r
    let t2 : Table := insertTableAfterId t r
    match checkUniqueCols t2.rows r2 t2.schema.columns with
    | .error e => (t2, .error e)
    | .ok _ =>
      ({ t2 with rows := t2.rows ++ [r2] }, .ok ((alistGet r2.data "row_id").getD .nullV))

/-- Operand of a Condition from parser.py: a column name or a literal. -/
inductive CondOperand where
  | colRef (name : String)
  | lit (v : Value)
deriving DecidableEq, Repr

/-- Condition from parser.py; the operator is the raw string. -/
structure Condition where
  left : CondOperand
  operator : String
  right : CondOperand
deriving DecidableEq, Repr

/-- Operand resolution shared by all three _matches_condition copies: a
column reference is looked up with dict .get (None when absent), a
literal contributes its value. -/
def resolveOperand (r : Row) : CondOperand → Value
  | .colRef s => r.get s
  | .lit v => v

/-- Comparison dispatch shared by the _matches_condition copies; `dflt` is
returned on an unknown operator (True in storage.py, False in
executor.py/database.py). -/
def evalComparison (op : String) (l r : Value) (dflt : Bool) : Except PyErr Bool :=
  if op = "=" then .ok (pyEq l r)
  else if op = "!=" then .ok (!pyEq l r)
  else if op = ">" then pyGt l r
  else if op = "<" then pyLt l r
  else if op = ">=" then pyGe l r
  else if op = "<=" then pyLe l r
  else .ok dflt

/-- Table._matches_condition from storage.py (falls back to True). -/
def matchesConditionTable (r : Row) (c : Condition) : Except PyErr Bool :=
  evalComparison c.operator (resolveOperand r c.left) (resolveOperand r c.right) true

/-- QueryExecutor._matches_condition and Database._matches_condition
(identical; fall back to False). -/
def matchesConditionExec (r : Row) (c : Condition) : Except PyErr Bool :=
  evalComparison c.operator (resolveOperand r c.left) (resolveOperand r c.right) false

/-- An absent where clause matches every row. -/
def rowMatchesT (r : Row) : Option Condition → Except PyErr Bool
  | none => .ok true
  | some c => matchesConditionTable r c

/-- Application of an UPDATE assignment dict to a row, in iteration
order. -/
def applyAssignments (r : Row) : List (String × Value) → Row
  | [] => r
  | (c, v) :: rest => applyAssignments (r.set c v) rest

/-- Loop body of Table.update: rows are visited in table order; a matching
row gets the assignments applied and is then re-validated; the first
predicate or validation error aborts the loop, and the returned row list
reflects every in-place mutation already performed, including the
assignment to the row whose validation failed. -/
def updateRows (s : TableSchema) (asg : List (String × Value)) (cond : Option Condition) :
    List Row → List Row × Except PyErr Int
  | [] => ([], .ok 0)
  | r :: rest =>
    match rowMatchesT r cond with
    | .error e => (r :: rest, .error e)
    | .ok false =>
      let res := updateRows s asg cond rest
      (r :: res.1, res.2)
    | .ok true =>
      let r2 := applyAssignments r asg
      match validateRow s r2 with
      | .error e => (r2 :: rest, .error e)
      | .ok _ =>
        let res := updateRows s asg cond rest
        (r2 :: res.1, res.2.map (fun n => n + 1))

/-- Table.update. -/
def Table.update (t : Table) (asg : List (String × Value)) (cond : Option Condition) :
    Table × Except PyErr Int :=
  let res := updateRows t.schema asg cond t.rows
  ({ t with rows := res.1 }, res.2)

/-- List comprehension of Table.delete: keep the rows that do not match;
a comparison error propagates and (since the comprehension result is only
assigned on completion) leaves the row list unchanged. -/
def filterNotMatching (c : Condition) : List Row → Except PyErr (List Row)
  | [] => .ok []
  | r :: rest => do
    let m ← matchesConditionTable r c
    let tail ← filterNotMatching c rest
    if m then pure tail else pure (r :: tail)

/-- Table.delete. -/
def Table.delete (t : Table) : Option Condition → Except PyErr (Table × Int)
  | none => .ok ({ t with rows := [] }, (t.rows.length : Int))
  | some c => do
    let kept ← filterNotMatching c t.rows
    .ok ({ t with rows := kept }, (t.rows.length : Int) - (kept.length : Int))

/-! B-tree index from index.py.  The Python BTreeNode has a single
`children` list that stores row-id buckets (lists, or the None
placeholder) when the node is a leaf and child nodes when it is internal;
the internal-node branch of _delete can also write None into a child
slot.  The embedding keeps two parallel fields, `buckets` (used only when
`is_leaf` is true) and `children` (used only when it is false, with
Option for the None slots written by _delete); every source access to the
shared list goes to the field selected by `is_leaf`.  Bucket elements are
the inserted values (row ids in practice).  Python list reads and writes
out of range are modelled by `idxErr`; descending into a None child slot
raises AttributeError (`attrErr`); recursion depth is bounded by fuel
standing for the Python recursion limit (`recursionErr`). -/

/-- Order from index.py. -/
inductive Order3 where
  | LT
  | EQ
  | GT
deriving DecidableEq, Repr

/-- BTreeNode from index.py (see the note above on the split children
field). -/
inductive BNode where
  | node (keys : List Value) (buckets : List (Option (List Value)))
      (children : List (Option BNode)) (is_leaf : Bool)

def BNode.keys : BNode → List Value
  | .node ks _ _ _ => ks

def BNode.buckets : BNode → List (Option (List Value))
  | .node _ bs _ _ => bs

def BNode.children : BNode → List (Option BNode)
  | .node _ _ cs _ => cs

def BNode.is_leaf : BNode → Bool
  | .node _ _ _ l => l

/-- BTreeIndex._compare_keys: `<` then `>`; an undefined comparison raises
TypeError. -/
def compareKeys (k1 k2 : Value) : Except PyErr Order3 := do
  let lt ← pyLt k1 k2
  if lt then pure .LT
  else do
    let gt ← pyGt k1 k2
    if gt then pure .GT else pure .EQ

/-- Python list.insert: the tail from position `i` is shifted right (a
position past the end appends). -/
def listInsertAt {α : Type} (i : Nat) (a : α) (l : List α) : List α :=
  l.take i ++ a :: l.drop i

/-- The descending while loop of the leaf branch of _insert_non_full.
The argument after the key is the Python loop index plus one, counting
down to zero; the two lists are the key and bucket arrays after the
initial appends.  Each iteration compares, copies `keys[i]` to
`keys[i+1]` and `buckets[i]` to `buckets[i+1]` (raising IndexError on an
out-of-range bucket read or write, which happens after a leaf split left
the bucket list shorter than the key list), and the loop returns the
final insertion position. -/
def leafInsLoop (key : Value) :
    Nat → List Value → List (Option (List Value)) →
    Except PyErr (Nat × List Value × List (Option (List Value)))
  | 0, ks, bs => .ok (0, ks, bs)
  | i + 1, ks, bs =>
    match ks[i]? with
    | none => .error .idxErr
    | some ki => do
      let c ← compareKeys key ki
      if c = Order3.LT then
        match bs[i]? with
        | none => .error .idxErr
        | some bv =>
          if i + 1 < bs.length then
            leafInsLoop key i (ks.set (i + 1) ki) (bs.set (i + 1) bv)
          else .error .idxErr
      else pure (i + 1, ks, bs)

/-- The descending scan of the internal branch of _insert_non_full (the
same loop without the copies); returns the child position after the final
`i += 1`. -/
def scanDesc (key : Value) (ks : List Value) : Nat → Except PyErr Nat
  | 0 => .ok 0
  | i + 1 =>
    match ks[i]? with
    | none => .error .idxErr
    | some ki => do
      let c ← compareKeys key ki
      if c = Order3.LT then scanDesc key ks i else pure (i + 1)

/-- BTreeIndex._split_child applied to the three parent fields.  The
middle key of the full child moves up into the parent at `index` and a
fresh right sibling is inserted at `index + 1`; keys after the middle
move to the sibling.  For an internal child the child array is split at
`order`; for a leaf child the source moves nothing, so the left child
keeps the entire bucket list and the sibling starts with an empty one
(the bucket misalignment of the source is preserved). -/
def splitChild (order : Nat) (ks : List Value) (cs : List (Option BNode)) (index : Nat) :
    Except PyErr (List Value × List (Option BNode)) :=
  match cs[index]? with
  | none => .error .idxErr
  | some none => .error .attrErr
  | some (some child) =>
    match child.keys[order - 1]? with
    | none => .error .idxErr
    | some midKey =>
      let newChild : BNode :=
        .node (child.keys.drop order) []
          (if child.is_leaf then [] else child.children.drop order) child.is_leaf
      let child2 : BNode :=
        .node (child.keys.take (order - 1)) child.buckets
          (if child.is_leaf then child.children else child.children.take order) child.is_leaf
      .ok (listInsertAt index midKey ks,
           listInsertAt (index + 1) (some newChild) (cs.set index (some child2)))

/-- BTreeIndex._insert_non_full. -/
def insertNonFull (order : Nat) : Nat → BNode → Value → Value → Except PyErr BNode
  | 0, _, _, _ => .error .recursionErr
  | _ + 1, .node ks bs cs true, key, val => do
    let ks1 := ks ++ [Value.nullV]
    let bs1 := bs ++ [none]
    let r ← leafInsLoop key ks.length ks1 bs1
    let p := r.1
    let ks2 := r.2.1.set p key
    match r.2.2[p]? with
    | none => .error .idxErr
    | some none => pure (.node ks2 (r.2.2.set p (some [val])) cs true)
    | some (some _) => pure (.node ks2 r.2.2 cs true)
  | fuel + 1, .node ks bs cs false, key, val => do
    let i ← scanDesc key ks ks.length
    match cs[i]? with
    | none => .error .idxErr
    | some none => .error .attrErr
    | some (some child) =>
      if child.keys.length = 2 * order - 1 then do
        let r ← splitChild order ks cs i
        let ks2 := r.1
        let cs2 := r.2
        let i2 ← (match ks2[i]? with
          | none => .error PyErr.idxErr
          | some ki => do
            let c ← compareKeys key ki
            pure (if c = Order3.GT then i + 1 else i))
        match cs2[i2]? with
        | none => .error .idxErr
        | some none => .error .attrErr
        | some (some child2) => do
          let child3 ← insertNonFull order fuel child2 key val
          pure (.node ks2 bs (cs2.set i2 (some child3)) false)
      else do
        let child3 ← insertNonFull order fuel child key val
        pure (.node ks bs (cs.set i (some child3)) false)

/-- BTreeIndex. -/
structure BTree where
  order : Nat
  root : BNode

/-- BTreeIndex(): the default order is 4 and the root starts as an empty
leaf. -/
def BTree.new : BTree := ⟨4, .node [] [] [] true⟩

/-- Recursion budget standing for the Python recursion limit (default
1000). -/
def pyRecursionLimit : Nat := 1000

/-- BTreeIndex.insert: a full root is split through a fresh internal root
before the non-full descent. -/
def BTree.insert (t : BTree) (key val : Value) : Except PyErr BTree :=
  if t.root.keys.length = 2 * t.order - 1 then do
    let r ← splitChild t.order [] [some t.root] 0
    let root2 : BNode := .node r.1 [] r.2 false
    let root3 ← insertNonFull t.order pyRecursionLimit root2 key val
    pure ⟨t.order, root3⟩
  else do
    let root2 ← insertNonFull t.order pyRecursionLimit t.root key val
    pure ⟨t.order, root2⟩

/-- The ascending scan shared by _search, _search_range and _delete:
advance past every key the probe compares greater than. -/
def scanAscAux (key : Value) : List Value → Except PyErr Nat
  | [] => .ok 0
  | k :: rest => do
    let c ← compareKeys key k
    if c = Order3.GT then do
      let n ← scanAscAux key rest
      pure (n + 1)
    else pure 0

/-- Result of _search: a bucket of values, or — when the exact match sits
in an internal node — the child NODE object that the source returns in
place of a bucket. -/
inductive SearchRes where
  | vals (ids : List Value)
  | nodeRes (n : BNode)

/-- BTreeIndex._search. -/
def searchNode : Nat → BNode → Value → Except PyErr SearchRes
  | 0, _, _ => .error .recursionErr
  | fuel + 1, n, key => do
    let i ← scanAscAux key n.keys
    let hit ← (match n.keys[i]? with
      | some ki => do
        let c ← compareKeys key ki
        pure (c == Order3.EQ)
      | none => pure false)
    if hit then
      if n.is_leaf then
        match n.buckets[i]? with
        | none => .error .idxErr
        | some none => pure (.vals [])
        | some (some b) => pure (.vals b)
      else
        match n.children[i]? with
        | none => .error .idxErr
        | some none => pure (.vals [])
        | some (some ch) => pure (.nodeRes ch)
    else if n.is_leaf then pure (.vals [])
    else
      match n.children[i]? with
      | none => .error .idxErr
      | some none => .error .attrErr
      | some (some ch) => searchNode fuel ch key

/-- BTreeIndex.search. -/
def BTree.search (t : BTree) (key : Value) : Except PyErr SearchRes :=
  searchNode pyRecursionLimit t.root key

/-- BTreeIndex._delete: a key found in a leaf is removed together with its
bucket slot; a key found in an internal node only has its child slot
overwritten with None (no restructuring). -/
def deleteNode : Nat → BNode → Value → Except PyErr (BNode × Bool)
  | 0, _, _ => .error .recursionErr
  | fuel + 1, n, key => do
    let i ← scanAscAux key n.keys
    let hit ← (match n.keys[i]? with
      | some ki => do
        let c ← compareKeys key ki
        pure (c == Order3.EQ)
      | none => pure false)
    if hit then
      if n.is_leaf then
        if i < n.buckets.length then
          pure (.node (n.keys.eraseIdx i) (n.buckets.eraseIdx i) n.children true, true)
        else .error .idxErr
      else pure (.node n.keys n.buckets (n.children.set i none) false, true)
    else if n.is_leaf then pure (n, false)
    else
      match n.children[i]? with
      | none => .error .idxErr
      | some none => .error .attrErr
      | some (some ch) => do
        let r ← deleteNode fuel ch key
        pure (.node n.keys n.buckets (n.children.set i (some r.1)) n.is_leaf, r.2)

/-- BTreeIndex.delete. -/
def BTree.delete (t : BTree) (key : Value) : Except PyErr (BTree × Bool) := do
  let r ← deleteNode pyRecursionLimit t.root key
  pure (⟨t.order, r.1⟩, r.2)

/-- IndexManager from index.py. -/
structure IndexManager where
  indexes : List (String × BTree)
  table_indexes : List (String × List String)

def IndexManager.new : IndexManager := ⟨[], []⟩

/-- IndexManager.create_index: register a fresh default B-tree under the
index name and append the name to the table association.  The declared
column name is recorded nowhere — the source never uses it. -/
def IndexManager.create_index (im : IndexManager) (iname tname _cname : String) :
    Except PyErr IndexManager :=
  if (alistGet im.indexes iname).isSome then
    .error (.valueErr "index already exists")
  else
    let ti := (alistGet im.table_indexes tname).getD []
    .ok ⟨alistSet im.indexes iname BTree.new,
         alistSet im.table_indexes tname (ti ++ [iname])⟩

/-- IndexManager.get_table_indexes. -/
def IndexManager.get_table_indexes (im : IndexManager) (tname : String) : List String :=
  (alistGet im.table_indexes tname).getD []

/-- Loop of IndexManager.insert_into_indexes over the index names of a
table: each registered index receives the value of the FIRST stored field
of the row (the source comment admits it does not track the indexed
column).  An empty row dict is skipped.  A tree mutated before a raise is
kept (Python mutates the trees in place). -/
def insertIntoIndexesLoop (rowData : Dict) (rid : Value) :
    IndexManager → List String → IndexManager × Except PyErr Unit
  | im, [] => (im, .ok ())
  | im, iname :: rest =>
    match alistGet im.indexes iname with
    | none => insertIntoIndexesLoop rowData rid im rest
    | some idx =>
      match rowData with
      | [] => insertIntoIndexesLoop rowData rid im rest
      | (_, firstVal) :: _ =>
        match idx.insert firstVal rid with
        | .error e => (im, .error e)
        | .ok idx2 =>
          insertIntoIndexesLoop rowData rid { im with indexes := alistSet im.indexes iname idx2 } rest

/-- IndexManager.insert_into_indexes. -/
def IndexManager.insert_into_indexes (im : IndexManager) (tname : String)
    (rowData : Dict) (rid : Value) : IndexManager × Except PyErr Unit :=
  insertIntoIndexesLoop rowData rid im (im.get_table_indexes tname)

/-- Loop of IndexManager.delete_from_indexes: each registered index gets a
whole-key delete of the FIRST stored field of the row (the row id is not
consulted, so every row id bucketed under that key is dropped). -/
def deleteFromIndexesLoop (rowData : Dict) :
    IndexManager → List String → IndexManager × Except PyErr Unit
  | im, [] => (im, .ok ())
  | im, iname :: rest =>
    match alistGet im.indexes iname with
    | none => deleteFromIndexesLoop rowData im rest
    | some idx =>
      match rowData with
      | [] => deleteFromIndexesLoop rowData im rest
      | (_, firstVal) :: _ =>
        match idx.delete firstVal with
        | .error e => (im, .error e)
        | .ok r =>
          deleteFromIndexesLoop rowData { im with indexes := alistSet im.indexes iname r.1 } rest

/-- IndexManager.delete_from_indexes. -/
def IndexManager.delete_from_indexes (im : IndexManager) (tname : String)
    (rowData : Dict) : IndexManager × Except PyErr Unit :=
  deleteFromIndexesLoop rowData im (im.get_table_indexes tname)

/-- Database state: the StorageEngine table registry plus the
IndexManager.  Disk persistence is modelled separately (save_to_disk and
load_from_disk below); the save call at the end of each mutating
statement does not change this state. -/
structure DBState where
  tables : List (String × Table)
  im : IndexManager

/-- Row-data construction of Database._execute_insert: values are bound
positionally to the schema columns through successive dict assignments;
values beyond the column count are ignored. -/
def buildRowData (cols : List Column) (values : List Value) : Dict :=
  (values.zip cols).foldl (fun d p => alistSet d p.2.name p.1) []

/-- Database._execute_insert (without the trailing save_to_disk, which
does not touch this state): resolve the table, build the row, insert it
(the registry keeps the mutated table even when the insert raises, since
Python mutates it in place), then push the first field of the stored row
into every index on the table. -/
def executeInsert (s : DBState) (tname : String) (values : List Value) :
    DBState × Except PyErr Value :=
  match alistGet s.tables tname with
  | none => (s, .error (.valueErr "table does not exist"))
  | some tbl =>
    let rowData := buildRowData tbl.schema.columns values
    let res := tbl.insert ⟨rowData⟩
    let s2 : DBState := { s with tables := alistSet s.tables tname res.1 }
    match res.2 with
    | .error e => (s2, .error e)
    | .ok rid =>
      let storedData := ((res.1.rows.getLast?).map Row.data).getD rowData
      let imr := s2.im.insert_into_indexes tname storedData rid
      match imr.2 with
      | .error e => ({ s2 with im := imr.1 }, .error e)
      | .ok _ => ({ s2 with im := imr.1 }, .ok rid)

/-- List comprehension of Database._execute_delete and _execute_update
computing the rows matching the statement predicate with
Database._matches_condition. -/
def collectMatchingDb (c : Condition) : List Row → Except PyErr (List Row)
  | [] => .ok []
  | r :: rest => do
    let m ← matchesConditionExec r c
    let tail ← collectMatchingDb c rest
    pure (if m then r :: tail else tail)

/-- The per-row loop of _execute_delete over the matching rows. -/
def deleteRowsFromIndexes (im : IndexManager) (tname : String) :
    List Row → IndexManager × Except PyErr Unit
  | [] => (im, .ok ())
  | r :: rest =>
    let imr := im.delete_from_indexes tname r.data
    match imr.2 with
    | .error e => (imr.1, .error e)
    | .ok _ => deleteRowsFromIndexes imr.1 tname rest

/-- Database._execute_delete (without the trailing save_to_disk): collect
the matching rows, remove each of them from every index on the table
(whole-key deletes of the first field), then delete from the table. -/
def executeDelete (s : DBState) (tname : String) (cond : Option Condition) :
    DBState × Except PyErr Int :=
  match alistGet s.tables tname with
  | none => (s, .error (.valueErr "table does not exist"))
  | some tbl =>
    let rowsToDelete : Except PyErr (List Row) :=
      match cond with
      | some c => collectMatchingDb c tbl.rows
      | none => .ok tbl.rows
    match rowsToDelete with
    | .error e => (s, .error e)
    | .ok rtd =>
      let imr := deleteRowsFromIndexes s.im tname rtd
      match imr.2 with
      | .error e => ({ s with im := imr.1 }, .error e)
      | .ok _ =>
        match tbl.delete cond with
        | .error e => ({ s with im := imr.1 }, .error e)
        | .ok r =>
          ({ tables := alistSet s.tables tname r.1, im := imr.1 }, .ok r.2)

/-- Merge loop of _apply_join (QueryExecutor._apply_join and the identical
Database._apply_join): every right-hand column except row_id is written
into a copy of the left row under the right table name as a prefix. -/
def mergeRight (rightName : String) : Dict → Dict → Dict
  | acc, [] => acc
  | acc, (k, v) :: rest =>
    if k = "row_id" then mergeRight rightName acc rest
    else mergeRight rightName (alistSet acc (rightName ++ "_" ++ k) v) rest

/-- Inner loop of _apply_join: scan the right table in stored order and
stop at the first row whose join key equals the left key (Python ==). -/
def findFirstJoin (lk : Value) (rc : String) : List Row → Option Row
  | [] => none
  | rr :: rest => if pyEq lk (rr.get rc) then some rr else findFirstJoin lk rc rest

/-- _apply_join: each left row with a join key that is not None
contributes the merge with the first matching right row, or nothing. -/
def applyJoin (rows : List Row) (jt : Table) (lc rc : String) : List Row :=
  match rows with
  | [] => []
  | l :: rest =>
    let lk := l.get lc
    if lk ≠ Value.nullV then
      match findFirstJoin lk rc jt.rows with
      | some rr => ⟨mergeRight jt.schema.name l.data rr.data⟩ :: applyJoin rest jt lc rc
      | none => applyJoin rest jt lc rc
    else applyJoin rest jt lc rc

/-! Persistence from StorageEngine.save_to_disk / load_from_disk.  The
data directory is modelled as an association list from file name to file
content; JSON serialization of the value shapes written here (objects
with string keys, arrays, int/float/str/bool/null leaves) is lossless, so
file contents are modelled structurally.  os.listdir order is modelled as
the write order of save_to_disk. -/

/-- The .value string of a DataType enum member. -/
def DataType.value : DataType → String
  | .INT => "INT"
  | .TEXT => "TEXT"
  | .FLOAT => "FLOAT"
  | .BOOL => "BOOL"

/-- DataType(s): enum lookup by value string, ValueError when unknown. -/
def dataTypeOfString (s : String) : Except PyErr DataType :=
  if s = "INT" then .ok .INT
  else if s = "TEXT" then .ok .TEXT
  else if s = "FLOAT" then .ok .FLOAT
  else if s = "BOOL" then .ok .BOOL
  else .error (.valueErr "bad DataType")

/-- The .value string of a ConstraintType enum member. -/
def ConstraintType.value : ConstraintType → String
  | .PRIMARY_KEY => "PRIMARY_KEY"
  | .UNIQUE => "UNIQUE"
  | .NOT_NULL => "NOT_NULL"

/-- ConstraintType(s): enum lookup by value string. -/
def constraintOfString (s : String) : Except PyErr ConstraintType :=
  if s = "PRIMARY_KEY" then .ok .PRIMARY_KEY
  else if s = "UNIQUE" then .ok .UNIQUE
  else if s = "NOT_NULL" then .ok .NOT_NULL
  else .error (.valueErr "bad ConstraintType")

/-- One column dict of a persisted schema document. -/
structure ColumnDisk where
  name : String
  data_type : String
  constraints : List String
deriving DecidableEq, Repr

/-- Content of one persisted file: a `<t>_schema.json` document or a
`<t>_rows.json` document. -/
inductive DiskFile where
  | schemaFile (name : String) (columns : List ColumnDisk) (primary_key : Option String)
  | rowsFile (rows : List Dict)
deriving DecidableEq, Repr

/-- Serialization of one Column for the schema document. -/
def columnToDisk (c : Column) : ColumnDisk :=
  ⟨c.name, c.data_type.value, c.constraints.map ConstraintType.value⟩

/-- StorageEngine.save_to_disk: for every table, in registry order, write
`<name>_schema.json` then `<name>_rows.json` (full rewrite). -/
def saveToDisk (tables : List (String × Table)) : List (String × DiskFile) :=
  (tables.map (fun p =>
    [(p.1 ++ "_schema.json",
      DiskFile.schemaFile p.2.schema.name (p.2.schema.columns.map columnToDisk)
        p.2.schema.primary_key),
     (p.1 ++ "_rows.json", DiskFile.rowsFile (p.2.rows.map Row.data))])).flatten

/-- Python str.endswith via the reversed character lists. -/
def endsWithB (s suffix : String) : Bool :=
  suffix.toList.reverse.isPrefixOf s.toList.reverse

/-- The literal "_schema.json". -/
def schemaSuffix : List Char := "_schema.json".toList

/-- Python `filename.replace("_schema.json", "")`: remove every
non-overlapping occurrence of the pattern, scanning left to right.  The
fuel is the length of the input, which bounds the number of steps. -/
def stripSchemaF : Nat → List Char → List Char
  | 0, l => l
  | _ + 1, [] => []
  | fuel + 1, c :: rest =>
    if schemaSuffix.isPrefixOf (c :: rest) then stripSchemaF fuel (rest.drop 11)
    else c :: stripSchemaF fuel rest

def pyReplaceSchema (s : String) : String := ⟨stripSchemaF s.toList.length s.toList⟩

/-- Constraint reconstruction comprehension of load_from_disk. -/
def parseConstraints : List String → Except PyErr (List ConstraintType)
  | [] => .ok []
  | s :: rest => do
    let c ← constraintOfString s
    let tail ← parseConstraints rest
    pure (c :: tail)

/-- Column reconstruction loop of load_from_disk. -/
def parseColumns : List ColumnDisk → Except PyErr (List Column)
  | [] => .ok []
  | cd :: rest => do
    let dt ← dataTypeOfString cd.data_type
    let cons ← parseConstraints cd.constraints
    let tail ← parseColumns rest
    pure (⟨cd.name, dt, cons⟩ :: tail)

/-- Row-loading loop of load_from_disk: append each persisted row and
raise next_row_id past any integer `row_id` encountered.  Python would
also accept a bool (as an int) or a float row id here — a float would
make next_row_id itself a float; since next_row_id is an Int in this
model, a non-integer row id is mapped to typeErr (a str or None row id is
a genuine TypeError in Python as well).  Claims touching load are stated
for integer row ids, where the model and the source agree. -/
def loadRowsFold : List Dict → Table → Except PyErr Table
  | [], tbl => .ok tbl
  | d :: rest, tbl =>
    let tbl2 : Table := { tbl with rows := tbl.rows ++ [⟨d⟩] }
    match alistGet d "row_id" with
    | none => loadRowsFold rest tbl2
    | some (.intV k) =>
      loadRowsFold rest
        (if k ≥ tbl2.next_row_id then { tbl2 with next_row_id := k + 1 } else tbl2)
    | some (.boolV b) =>
      let k : Int := if b then 1 else 0
      loadRowsFold rest
        (if k ≥ tbl2.next_row_id then { tbl2 with next_row_id := k + 1 } else tbl2)
    | some _ => .error .typeErr

/-- Per-table body of the load_from_disk scan: reconstruct the schema
from the schema document and, when the rows file of the recovered table
name exists in the directory, load its rows. -/
def loadOneTable (allFiles : List (String × DiskFile)) (tname nm : String)
    (colsD : List ColumnDisk) (pk : Option String) : Except PyErr Table := do
  let cols ← parseColumns colsD
  let tbl0 : Table := ⟨⟨nm, cols, pk⟩, [], 1⟩
  match alistGet allFiles (tname ++ "_rows.json") with
  | none => .ok tbl0
  | some (.schemaFile _ _ _) => .error PyErr.typeErr
  | some (.rowsFile rds) => loadRowsFold rds tbl0

/-- Directory scan of StorageEngine.load_from_disk; `allFiles` is the
whole directory (consulted for the rows file of each table), the second
argument is the remaining scan, and the accumulator is the table registry
being filled by dict assignment.  A rows document found under a
`*_schema.json` name (or vice versa) cannot be produced by save_to_disk
and is mapped to typeErr, standing for the TypeError Python raises when
it subscripts the wrong JSON shape. -/
def loadFiles (allFiles : List (String × DiskFile)) :
    List (String × DiskFile) → List (String × Table) →
    Except PyErr (List (String × Table))
  | [], acc => .ok acc
  | (fname, content) :: rest, acc =>
    if endsWithB fname "_schema.json" then
      match content with
      | .rowsFile _ => .error .typeErr
      | .schemaFile nm colsD pk => do
        let tbl ← loadOneTable allFiles (pyReplaceSchema fname) nm colsD pk
        loadFiles allFiles rest (alistSet acc (pyReplaceSchema fname) tbl)
    else loadFiles allFiles rest acc

/-- StorageEngine.load_from_disk on a fresh engine. -/
def loadFromDisk (files : List (String × DiskFile)) :
    Except PyErr (List (String × Table)) :=
  loadFiles files files []

/-! Table-level operation sequences, used to state the row-id claims. -/

/-- One Table-level mutation: an insert of a fresh row or a predicate
delete.  (UPDATE assigns no new row ids.) -/
inductive TableOp where
  | ins (r : Row)
  | del (c : Option Condition)

/-- Run a sequence of table operations, collecting the integer row ids of
the rows each successful insert appended.  A raising statement leaves the
table as the in-place mutations left it (for a failed insert that is the
table returned by Table.insert; a failed delete leaves the rows
unchanged) and the sequence continues. -/
def runOps : Table → List TableOp → Table × List Int
  | t, [] => (t, [])
  | t, .ins r :: rest =>
    let res := t.insert r
    let collected : List Int :=
      match res.2 with
      | .ok (.intV k) => [k]
      | _ => []
    let tail := runOps res.1 rest
    (tail.1, collected ++ tail.2)
  | t, .del c :: rest =>
    match t.delete c with
    | .error _ => runOps t rest
    | .ok r => runOps r.1 rest

/-! Concrete scenario states used by the claim theorems. -/

/-- Bool check that a key list is strictly ascending under the Python
order (the in-node ordering named by the B-tree shape invariant). -/
def keysStrictAscB : List Value → Bool
  | [] => true
  | [_] => true
  | a :: b :: rest =>
    (match pyLt a b with
     | .ok true => true
     | _ => false) && keysStrictAscB (b :: rest)

/-- Table t(a INT, b INT) of the index-consistency scenario. -/
def c1_schema : TableSchema := ⟨"t", [⟨"a", .INT, []⟩, ⟨"b", .INT, []⟩], none⟩

/-- Engine state after CREATE TABLE t and CREATE INDEX idx ON t(a). -/
def c1_s0 : DBState :=
  ⟨[("t", Table.new c1_schema)],
   (IndexManager.new.create_index "idx" "t" "a").toOption.getD IndexManager.new⟩

/-- State after INSERT INTO t VALUES (1, 1). -/
def c1_s1 : DBState := (executeInsert c1_s0 "t" [.intV 1, .intV 1]).1

/-- State after INSERT INTO t VALUES (1, 2). -/
def c1_s2 : DBState := (executeInsert c1_s1 "t" [.intV 1, .intV 2]).1

/-- Predicate b = 2 of the DELETE statement. -/
def c1_cond : Condition := ⟨.colRef "b", "=", .lit (.intV 2)⟩

/-- State after DELETE FROM t WHERE b = 2. -/
def c1_s3 : DBState := (executeDelete c1_s2 "t" (some c1_cond)).1

/-- The index after the completed DELETE. -/
def c1_idx : BTree := (alistGet c1_s3.im.indexes "idx").getD BTree.new

/-- The table after the completed DELETE. -/
def c1_tbl : Table := (alistGet c1_s3.tables "t").getD (Table.new c1_schema)

/-- Two inserts of the same key into a fresh default B-tree. -/
def c2_run : Except PyErr BTree := do
  let t1 ← BTree.new.insert (.intV 5) (.intV 10)
  t1.insert (.intV 5) (.intV 20)

/-- The tree those two inserts actually build: a second key entry with its
own singleton bucket, not one bucket of two row ids. -/
def c2_tree : BTree :=
  ⟨4, .node [.intV 5, .intV 5] [some [.intV 10], some [.intV 20]] [] true⟩

/-- Two inserts of the same key, for the shape claim. -/
def c3_run : Except PyErr BTree := do
  let t1 ← BTree.new.insert (.intV 7) (.intV 1)
  t1.insert (.intV 7) (.intV 2)

def c3_tree : BTree :=
  ⟨4, .node [.intV 7, .intV 7] [some [.intV 1], some [.intV 2]] [] true⟩

/-- A table whose registry name contains the pattern "_schema.json". -/
def c5_schemaW : TableSchema := ⟨"x_schema.jsonx", [⟨"a", .INT, []⟩], none⟩

def c5_tables : List (String × Table) :=
  [("x_schema.jsonx", ⟨c5_schemaW, [⟨[("a", .intV 7), ("row_id", .intV 1)]⟩], 2⟩)]

/-- Single-column table of the row-id reuse scenario. -/
def c6_schema : TableSchema := ⟨"t6", [⟨"a", .INT, []⟩], none⟩

def c6_cond : Condition := ⟨.colRef "row_id", "=", .lit (.intV 2)⟩

/-- Table state after insert, insert, delete of the row with id 2. -/
def c6_t3 : Table :=
  ⟨c6_schema, [⟨[("a", .intV 10), ("row_id", .intV 1)]⟩], 3⟩

/-- What load_from_disk rebuilds from the persisted form of c6_t3: the
highest surviving row id is 1, so next_row_id comes back as 2 even though
id 2 was already assigned. -/
def c6_loadedT : Table :=
  ⟨c6_schema, [⟨[("a", .intV 10), ("row_id", .intV 1)]⟩], 2⟩

/-- Row {x: 1} and the condition y = 5 on a column the row lacks. -/
def c9_row : Row := ⟨[("x", .intV 1)]⟩

def c9_cond : Condition := ⟨.colRef "y", "=", .lit (.intV 5)⟩

/-- Schema of the spec scenario users(id INT PRIMARY KEY, name TEXT NOT NULL). -/
def c4_schema : TableSchema :=
  ⟨"users", [⟨"id", .INT, [.PRIMARY_KEY]⟩, ⟨"name", .TEXT, [.NOT_NULL]⟩], some "id"⟩

def c4_r1 : Row := ⟨[("id", .intV 1), ("name", .strV "a")]⟩

def c4_r2 : Row := ⟨[("id", .intV 1), ("name", .strV "b")]⟩

/-- The users table after the first insert. -/
def c4_t1 : Table := ((Table.new c4_schema).insert c4_r1).1

/-- Specification-level form of the join body, for comparison with the
loop in the source: each left row with a non-None join key is merged with
the FIRST right row (List.find?) whose key compares equal, or dropped. -/
def joinSpecFn (jt : Table) (lc rc : String) (l : Row) : Option Row :=
  if l.get lc ≠ Value.nullV then
    (jt.rows.find? (fun rr => pyEq (l.get lc) (rr.get rc))).map
      (fun rr => (⟨mergeRight jt.schema.name l.data rr.data⟩ : Row))
  else none

/-- Left rows of the join scenario: one user with id 1. -/
def c8_users_rows : List Row := [⟨[("id", .intV 1), ("row_id", .intV 1)]⟩]

/-- Right table of the join scenario: two orders owned by user 1. -/
def c8_orders : Table :=
  ⟨⟨"orders", [⟨"oid", .INT, []⟩, ⟨"user_id", .INT, []⟩], none⟩,
   [⟨[("oid", .intV 10), ("user_id", .intV 1), ("row_id", .intV 1)]⟩,
    ⟨[("oid", .intV 11), ("user_id", .intV 1), ("row_id", .intV 2)]⟩], 3⟩

/-- The boolean outcome of the Table predicate matcher, with a raising
comparison read as false; used only to state theorems whose hypotheses
rule the raising case out. -/
def rowMatchedB (cond : Option Condition) (r : Row) : Bool :=
  match rowMatchesT r cond with
  | .ok b => b
  | .error _ => false

/-- Two-column schema of the update scenario. -/
def c7_schema : TableSchema := ⟨"t7", [⟨"a", .INT, []⟩, ⟨"b", .INT, []⟩], none⟩

/-- Rows of the update scenario: the second one holds a str in the INT
column b, so it fails re-validation after any assignment. -/
def c7_rows : List Row :=
  [⟨[("a", .intV 1)]⟩, ⟨[("a", .intV 1), ("b", .strV "oops")]⟩]

def c7_asg : List (String × Value) := [("a", .intV 5)]

/-- Substring test used to state the round-trip hypothesis: does the
pattern occur anywhere in the character list? -/
def hasInfixB (pat : List Char) : List Char → Bool
  | [] => pat.isEmpty
  | c :: rest => pat.isPrefixOf (c :: rest) || hasInfixB pat rest

/-- Total twin of the next_row_id recomputation performed by the row
loading loop, for integer (and bool, as Python ints) row ids; other
shapes leave the counter alone here and raise in loadRowsFold, so the two
agree wherever loadRowsFold succeeds. -/
def nextFromRows : List Dict → Int → Int
  | [], n => n
  | d :: rest, n =>
    match alistGet d "row_id" with
    | some (.intV k) => nextFromRows rest (if k ≥ n then k + 1 else n)
    | some (.boolV b) =>
      nextFromRows rest (if (if b then (1 : Int) else 0) ≥ n then (if b then (1 : Int) else 0) + 1 else n)
    | _ => nextFromRows rest n

/-- The table load_from_disk rebuilds from the persisted form of a table:
same schema and rows, next_row_id recomputed from the stored row ids. -/
def reloadTable (t : Table) : Table :=
  ⟨t.schema, t.rows, nextFromRows (t.rows.map Row.data) 1⟩

/-- The part of a registry entry the round-trip claim compares: name,
schema and rows (next_row_id is recomputed by load). -/
def tableContent (p : String × Table) : String × TableSchema × List Row :=
  (p.1, p.2.schema, p.2.rows)

/-- Registry of the round-trip witness: the users table with one row. -/
def c5_tablesW : List (String × Table) :=
  [("users", ⟨c4_schema, [⟨[("id", .intV 1), ("name", .strV "a"), ("row_id", .intV 1)]⟩], 2⟩)]

/-! Helper lemmas about the dict model and the uniqueness check. -/

theorem alistGet_set_eq {α : Type} (d : List (String × α)) (k : String) (v : α) :
    alistGet (alistSet d k v) k = some v := by
  induction d with
  | nil => simp [alistSet, alistGet]
  | cons hd tl ih =>
    obtain ⟨k1, v1⟩ := hd
    by_cases h1 : k1 = k
    · simp [alistSet, alistGet, h1]
    · simp [alistSet, alistGet, h1, ih]

theorem alistGet_set_ne {α : Type} (d : List (String × α)) (k k2 : String) (v : α)
    (h : k ≠ k2) : alistGet (alistSet d k v) k2 = alistGet d k2 := by
  induction d with
  | nil => simp [alistSet, alistGet, h]
  | cons hd tl ih =>
    obtain ⟨k1, v1⟩ := hd
    by_cases h1 : k1 = k
    · subst h1
      simp [alistSet, alistGet, h]
    · by_cases h2 : k1 = k2 <;> simp [alistSet, alistGet, h1, h2, ih, Ne.symm h]

theorem rowsHoldDup_of_mem (cn : String) (nv w : Value) (rows : List Row) (row : Row)
    (hmem : row ∈ rows) (hget : alistGet row.data cn = some w)
    (heq : pyEq w nv = true) : rowsHoldDup cn nv rows = true := by
  induction rows with
  | nil => cases hmem
  | cons hd tl ih =>
    rcases List.mem_cons.mp hmem with h | h
    · subst h
      simp [rowsHoldDup, hget, heq]
    · simp [rowsHoldDup, ih h]

/-- Unfolding equation of the uniqueness scan on a column cons cell. -/
theorem checkUniqueCols_cons (rows : List Row) (newRow : Row) (hd : Column) (tl : List Column) :
    checkUniqueCols rows newRow (hd :: tl) =
      if hd.constraints.contains ConstraintType.UNIQUE ||
         hd.constraints.contains ConstraintType.PRIMARY_KEY then
        match alistGet newRow.data hd.name with
        | some nv =>
          if rowsHoldDup hd.name nv rows then .error (.duplicateKey hd.name)
          else checkUniqueCols rows newRow tl
        | none => checkUniqueCols rows newRow tl
      else checkUniqueCols rows newRow tl := rfl

/-- If some UNIQUE / PRIMARY_KEY column of the scanned list has a value in
the new row equal (Python ==) to a value some existing row holds in that
column, the uniqueness scan raises a duplicate error. -/
theorem checkUniqueCols_error_of_dup (rows : List Row) (newRow : Row) (cols : List Column)
    (h : ∃ c ∈ cols,
      (c.constraints.contains ConstraintType.UNIQUE ||
       c.constraints.contains ConstraintType.PRIMARY_KEY) = true ∧
      ∃ nv, alistGet newRow.data c.name = some nv ∧ rowsHoldDup c.name nv rows = true) :
    ∃ cn, checkUniqueCols rows newRow cols = .error (.duplicateKey cn) := by
  induction cols with
  | nil =>
    obtain ⟨c, hc, _⟩ := h
    cases hc
  | cons hd tl ih =>
    obtain ⟨c, hc, hcon, nv, hget, hdup⟩ := h
    by_cases h1 : (hd.constraints.contains ConstraintType.UNIQUE ||
        hd.constraints.contains ConstraintType.PRIMARY_KEY) = true
    · cases hget2 : alistGet newRow.data hd.name with
      | some nv2 =>
        by_cases hdup2 : rowsHoldDup hd.name nv2 rows = true
        · refine ⟨hd.name, ?_⟩
          rw [checkUniqueCols_cons, if_pos h1, hget2]
          dsimp only
          rw [if_pos hdup2]
        · rcases List.mem_cons.mp hc with hch | hct
          · subst hch
            rw [hget2] at hget
            cases hget
            exact absurd hdup hdup2
          · obtain ⟨cn, hcn⟩ := ih ⟨c, hct, hcon, nv, hget, hdup⟩
            refine ⟨cn, ?_⟩
            rw [checkUniqueCols_cons, if_pos h1, hget2]
            dsimp only
            rw [if_neg hdup2, hcn]
      | none =>
        rcases List.mem_cons.mp hc with hch | hct
        · subst hch
          rw [hget2] at hget
          cases hget
        · obtain ⟨cn, hcn⟩ := ih ⟨c, hct, hcon, nv, hget, hdup⟩
          refine ⟨cn, ?_⟩
          rw [checkUniqueCols_cons, if_pos h1, hget2]
          dsimp only
          rw [hcn]
    · rcases List.mem_cons.mp hc with hch | hct
      · subst hch
        exact absurd hcon h1
      · obtain ⟨cn, hcn⟩ := ih ⟨c, hct, hcon, nv, hget, hdup⟩
        refine ⟨cn, ?_⟩
        rw [checkUniqueCols_cons, if_neg h1, hcn]

/-- The row-id assignment step leaves every existing key lookup intact. -/
theorem insertRowWithId_get_of_some (t : Table) (r : Row) (cn : String) (nv : Value)
    (hget : alistGet r.data cn = some nv) :
    alistGet (insertRowWithId t r).data cn = some nv := by
  unfold insertRowWithId
  by_cases hrid : (alistGet r.data "row_id").isSome
  · rw [if_pos hrid]; exact hget
  · rw [if_neg hrid]
    show alistGet (alistSet r.data "row_id" (.intV t.next_row_id)) cn = some nv
    by_cases hcn : cn = "row_id"
    · subst hcn
      exact absurd (by rw [hget]; rfl) hrid
    · rw [alistGet_set_ne r.data "row_id" cn _ (Ne.symm hcn)]
      exact hget

theorem insertTableAfterId_rows (t : Table) (r : Row) :
    (insertTableAfterId t r).rows = t.rows := by
  unfold insertTableAfterId; split <;> rfl

theorem insertTableAfterId_schema (t : Table) (r : Row) :
    (insertTableAfterId t r).schema = t.schema := by
  unfold insertTableAfterId; split <;> rfl

/-- When the row carried no row_id, the assignment step consumed one
counter value. -/
theorem insertTableAfterId_next_of_none (t : Table) (r : Row)
    (hno : alistGet r.data "row_id" = none) :
    (insertTableAfterId t r).next_row_id = t.next_row_id + 1 := by
  unfold insertTableAfterId
  rw [hno]
  rfl

/-- Shape of Table.insert when validation passes but the uniqueness check
raises. -/
theorem insert_eq_of_unique_error (t : Table) (r : Row) (e : PyErr)
    (hval : validateRow t.schema r = .ok ())
    (hu : checkUniqueCols t.rows (insertRowWithId t r) t.schema.columns = .error e) :
    t.insert r = (insertTableAfterId t r, .error e) := by
  unfold Table.insert
  rw [hval]
  dsimp only
  rw [insertTableAfterId_rows, insertTableAfterId_schema, hu]

/-- A successful insert of a row that carries no row_id returns exactly
the counter value the row was assigned. -/
theorem insert_assigned_id (t : Table) (r : Row)
    (hno : alistGet r.data "row_id" = none) (v : Value)
    (hok : (t.insert r).2 = .ok v) : v = .intV t.next_row_id := by
  unfold Table.insert at hok
  cases hv : validateRow t.schema r with
  | error e => rw [hv] at hok; exact absurd hok (by simp)
  | ok u =>
    rw [hv] at hok
    dsimp only at hok
    cases hu : checkUniqueCols (insertTableAfterId t r).rows (insertRowWithId t r)
        (insertTableAfterId t r).schema.columns with
    | error e => rw [hu] at hok; exact absurd hok (by simp)
    | ok u2 =>
      rw [hu] at hok
      dsimp only at hok
      have hr2 : alistGet (insertRowWithId t r).data "row_id" = some (.intV t.next_row_id) := by
        unfold insertRowWithId
        rw [if_neg (by rw [hno]; simp)]
        exact alistGet_set_eq r.data "row_id" _
      rw [hr2] at hok
      exact (Except.ok.inj hok).symm

/-! Claim theorems. -/

/-- C1: the claim states that after every completed mutating statement
every index entry refers to a live row id and every live row is indexed.
Evaluating the engine on the recorded failing input refutes this for the
code: after CREATE INDEX idx ON t(a); INSERT (1,1); INSERT (1,2);
DELETE WHERE b = 2 — a completed statement returning affected_rows 1 —
the index still answers key 1 with exactly the bucket [2], the row id of
the deleted row, while the surviving row (row id 1, indexed key 1) is not
in that answer.  The statement is the negation of the claim at this input:
IndexManager.delete_from_indexes removes the whole key bucket of the
first stored field, so the surviving row loses its entry and the deleted
row keeps one. -/
theorem c1_index_consistency_fails :
    (executeDelete c1_s2 "t" (some c1_cond)).2 = .ok 1 ∧
    c1_idx.search (.intV 1) = .ok (.vals [.intV 2]) ∧
    c1_tbl.rows.map (fun r => r.get "row_id") = [.intV 1] :=
  ⟨rfl, rfl, rfl⟩

/-- C2: the claim states that inserting an existing key appends the row id
to the existing bucket and search returns all row ids ever inserted under
the key.  Evaluating the code: insert(5, 10) then insert(5, 20) on a
fresh default tree yields TWO key entries [5, 5] with separate singleton
buckets, and search(5) returns only [10] — the second row id is never
reachable, contradicting the claim and the search docstring (return all
associated values). -/
theorem c2_duplicate_key_not_bucketed :
    c2_run = .ok c2_tree ∧
    c2_tree.root.keys = [.intV 5, .intV 5] ∧
    c2_tree.search (.intV 5) = .ok (.vals [.intV 10]) :=
  ⟨rfl, rfl, rfl⟩

/-- C3: the claim states the B-tree shape invariant — in particular that
keys within each node are strictly ascending — for every insert
sequence.  Evaluating the code at the failing input: insert(7, r1) then
insert(7, r2) leaves the root with keys [7, 7], which is not strictly
ascending, because the leaf branch of _insert_non_full never merges an
equal key into the existing entry. -/
theorem c3_shape_invariant_fails :
    c3_run = .ok c3_tree ∧
    c3_tree.root.keys = [.intV 7, .intV 7] ∧
    keysStrictAscB c3_tree.root.keys = false :=
  ⟨rfl, rfl, rfl⟩

/-- C5 counterexample: the round-trip claim quantifies over every
StorageEngine state, but a table registered as "x_schema.jsonx" is saved
to "x_schema.jsonx_schema.json", and load_from_disk recovers the table
name with str.replace, which removes BOTH occurrences of "_schema.json":
the engine comes back with a table named "xx" that has lost its rows (its
rows file is looked up under the wrong name), not the saved table. -/
theorem c5_round_trip_counterexample :
    loadFromDisk (saveToDisk c5_tables) = .ok [("xx", ⟨c5_schemaW, [], 1⟩)] ∧
    [("xx", (⟨c5_schemaW, [], 1⟩ : Table))] ≠ c5_tables :=
  ⟨rfl, by decide⟩

/-- C6 counterexample: insert two rows (assigned ids 1 and 2), delete the
row with id 2, save and reload: load_from_disk restores next_row_id to
max(surviving ids) + 1 = 2, and the next successful insert is assigned
row id 2 again — an id that had already been assigned and deleted is
reused across the round trip, contradicting the never-reused clause. -/
theorem c6_row_id_reuse_counterexample :
    runOps (Table.new c6_schema)
      [.ins ⟨[("a", .intV 10)]⟩, .ins ⟨[("a", .intV 20)]⟩, .del (some c6_cond)] =
      (c6_t3, [1, 2]) ∧
    loadFromDisk (saveToDisk [("t6", c6_t3)]) = .ok [("t6", c6_loadedT)] ∧
    (c6_loadedT.insert ⟨[("a", .intV 30)]⟩).2 = .ok (.intV 2) :=
  ⟨rfl, rfl, rfl⟩

/-- C9 counterexample: the claim states predicate evaluation fails for
EVERY operator when a column reference does not resolve; but for `=` the
evaluator compares with Python ==, which is total, so the unresolved
reference y in y = 5 evaluates to None and the row simply fails to match
— the statement does not fail. -/
theorem c9_counterexample_eq_unresolved :
    matchesConditionExec c9_row c9_cond = .ok false :=
  rfl


/-- C4: for a table with a PRIMARY_KEY or UNIQUE column, inserting a row
whose value on that column equals (Python ==) a non-null value some live
row already holds fails with the duplicate-value ConstraintViolation and
leaves the stored rows unchanged.  (The hypothesis that the row itself
validates matches the claim scenario, where the rejected row is
well-typed and complete.) -/
theorem c4_duplicate_unique_rejected (t : Table) (r : Row)
    (hval : validateRow t.schema r = .ok ())
    (hdup : ∃ c ∈ t.schema.columns,
      (c.constraints.contains ConstraintType.UNIQUE ||
       c.constraints.contains ConstraintType.PRIMARY_KEY) = true ∧
      ∃ nv, alistGet r.data c.name = some nv ∧
      ∃ row ∈ t.rows, ∃ w, alistGet row.data c.name = some w ∧
        w ≠ Value.nullV ∧ pyEq w nv = true) :
    (∃ cn, (t.insert r).2 = .error (.duplicateKey cn)) ∧
    (t.insert r).1.rows = t.rows := by
  obtain ⟨c, hc, hcon, nv, hget, row, hrow, w, hw, _hwnn, hpe⟩ := hdup
  have hget2 := insertRowWithId_get_of_some t r c.name nv hget
  have hdup2 := rowsHoldDup_of_mem c.name nv w t.rows row hrow hw hpe
  obtain ⟨cn, hu⟩ :=
    checkUniqueCols_error_of_dup t.rows (insertRowWithId t r) t.schema.columns
      ⟨c, hc, hcon, nv, hget2, hdup2⟩
  have hins := insert_eq_of_unique_error t r _ hval hu
  rw [hins]
  exact ⟨⟨cn, rfl⟩, insertTableAfterId_rows t r⟩

/-- C4 witness: in the spec scenario the first insert succeeds with row id
1, the second insert of id 1 is rejected as a duplicate, the rows are
unchanged, and the table still holds exactly one row. -/
theorem c4_duplicate_unique_rejected_witness :
    ((Table.new c4_schema).insert c4_r1).2 = .ok (.intV 1) ∧
    (∃ cn, (c4_t1.insert c4_r2).2 = .error (.duplicateKey cn)) ∧
    (c4_t1.insert c4_r2).1.rows = c4_t1.rows ∧
    c4_t1.rows.length = 1 := by
  have h := c4_duplicate_unique_rejected c4_t1 c4_r2 (by rfl)
    ⟨⟨"id", .INT, [.PRIMARY_KEY]⟩, by decide, by decide, .intV 1, by rfl,
      ⟨[("id", .intV 1), ("name", .strV "a"), ("row_id", .intV 1)]⟩, by decide,
      .intV 1, by rfl, by decide, by decide⟩
  exact ⟨rfl, h.1, h.2, rfl⟩

/-- C10: a row without a pre-existing row_id that validates but collides
with a live row on a UNIQUE/PRIMARY_KEY column is rejected with the
stored rows unchanged, yet next_row_id has already been incremented, so
the rejected statement permanently consumes one row id and any next
successful insert of a fresh row is assigned the id after the consumed
one.  A row rejected by validation (missing NOT_NULL value or type
mismatch) leaves the table completely unchanged and consumes no id. -/
theorem c10_rejected_duplicate_consumes_row_id (t : Table) (r : Row)
    (hno : alistGet r.data "row_id" = none)
    (hval : validateRow t.schema r = .ok ())
    (hdup : ∃ c ∈ t.schema.columns,
      (c.constraints.contains ConstraintType.UNIQUE ||
       c.constraints.contains ConstraintType.PRIMARY_KEY) = true ∧
      ∃ nv, alistGet r.data c.name = some nv ∧
      ∃ row ∈ t.rows, ∃ w, alistGet row.data c.name = some w ∧ pyEq w nv = true) :
    (∃ cn, (t.insert r).2 = .error (.duplicateKey cn)) ∧
    (t.insert r).1.rows = t.rows ∧
    (t.insert r).1.next_row_id = t.next_row_id + 1 ∧
    (∀ r2 v, alistGet r2.data "row_id" = none → ((t.insert r).1.insert r2).2 = .ok v →
      v = .intV (t.next_row_id + 1)) ∧
    (∀ r3 e, validateRow t.schema r3 = .error e → t.insert r3 = (t, .error e)) := by
  obtain ⟨c, hc, hcon, nv, hget, row, hrow, w, hw, hpe⟩ := hdup
  have hget2 := insertRowWithId_get_of_some t r c.name nv hget
  have hdup2 := rowsHoldDup_of_mem c.name nv w t.rows row hrow hw hpe
  obtain ⟨cn, hu⟩ :=
    checkUniqueCols_error_of_dup t.rows (insertRowWithId t r) t.schema.columns
      ⟨c, hc, hcon, nv, hget2, hdup2⟩
  have hins := insert_eq_of_unique_error t r _ hval hu
  refine ⟨⟨cn, by rw [hins]⟩, by rw [hins]; exact insertTableAfterId_rows t r,
    by rw [hins]; exact insertTableAfterId_next_of_none t r hno, ?_, ?_⟩
  · intro r2 v h2 hok
    have hass := insert_assigned_id ((t.insert r).1) r2 h2 v hok
    rw [hins] at hass
    rw [hass, insertTableAfterId_next_of_none t r hno]
  · intro r3 e he
    unfold Table.insert
    rw [he]

/-- C10 witness: inserting (1, b) into the one-row users table is
rejected as a duplicate, leaves the single row in place, bumps
next_row_id from 2 to 3, a following successful insert of (7, c) is
assigned row id 3 (skipping 2), and the ill-typed row (TRUE as the TEXT
name) is rejected by validation with the table untouched. -/
theorem c10_rejected_duplicate_consumes_row_id_witness :
    (∃ cn, (c4_t1.insert c4_r2).2 = .error (.duplicateKey cn)) ∧
    (c4_t1.insert c4_r2).1.rows = c4_t1.rows ∧
    (c4_t1.insert c4_r2).1.next_row_id = c4_t1.next_row_id + 1 ∧
    ((c4_t1.insert c4_r2).1.insert ⟨[("id", .intV 7), ("name", .strV "c")]⟩).2 =
      .ok (.intV 3) ∧
    c4_t1.insert ⟨[("id", .intV 2), ("name", .boolV true)]⟩ =
      (c4_t1, .error (.typeMismatch "name")) := by
  have h := c10_rejected_duplicate_consumes_row_id c4_t1 c4_r2 (by rfl) (by rfl)
    ⟨⟨"id", .INT, [.PRIMARY_KEY]⟩, by decide, by decide, .intV 1, by rfl,
      ⟨[("id", .intV 1), ("name", .strV "a"), ("row_id", .intV 1)]⟩, by decide,
      .intV 1, by rfl, by decide⟩
  refine ⟨h.1, h.2.1, h.2.2.1, rfl, ?_⟩
  exact h.2.2.2.2 ⟨[("id", .intV 2), ("name", .boolV true)]⟩ (.typeMismatch "name") (by rfl)


/-- The inner join loop is List.find? on the right rows. -/
theorem findFirstJoin_eq_find (lk : Value) (rc : String) (rows : List Row) :
    findFirstJoin lk rc rows = rows.find? (fun rr => pyEq lk (rr.get rc)) := by
  induction rows with
  | nil => rfl
  | cons hd tl ih =>
    by_cases h : pyEq lk (hd.get rc) = true
    · simp [findFirstJoin, h, List.find?_cons_of_pos]
    · rw [List.find?_cons_of_neg _ (by simp [h])]
      simpa [findFirstJoin, h] using ih

/-- The join loop computes exactly the per-left-row filterMap of the
first-match merge. -/
theorem applyJoin_eq_filterMap (rows : List Row) (jt : Table) (lc rc : String) :
    applyJoin rows jt lc rc = rows.filterMap (joinSpecFn jt lc rc) := by
  induction rows with
  | nil => rfl
  | cons l rest ih =>
    rw [List.filterMap_cons]
    by_cases h : l.get lc ≠ Value.nullV
    · cases hf : findFirstJoin (l.get lc) rc jt.rows with
      | some rr =>
        have hf2 : jt.rows.find? (fun rr => pyEq (l.get lc) (rr.get rc)) = some rr := by
          rw [← findFirstJoin_eq_find]; exact hf
        simp [applyJoin, joinSpecFn, h, hf, hf2, ih]
      | none =>
        have hf2 : jt.rows.find? (fun rr => pyEq (l.get lc) (rr.get rc)) = none := by
          rw [← findFirstJoin_eq_find]; exact hf
        simp [applyJoin, joinSpecFn, h, hf, hf2, ih]
    · rw [not_ne_iff] at h
      simp [applyJoin, joinSpecFn, h, ih]

/-- C8: the inner join is single-match.  The loop equals, for every input,
the filterMap that keeps each left row with a non-None join key exactly
when the right table has a matching row, merging with the FIRST match
(right columns renamed with the right table name as prefix, except
row_id, by mergeRight); and in the spec scenario — users(id) joined to
orders(user_id) where user 1 owns two orders — the result is exactly one
joined row for user 1, merged from the first order only. -/
theorem c8_join_single_match :
    (∀ (rows : List Row) (jt : Table) (lc rc : String),
      applyJoin rows jt lc rc = rows.filterMap (joinSpecFn jt lc rc)) ∧
    applyJoin c8_users_rows c8_orders "id" "user_id" =
      [⟨[("id", .intV 1), ("row_id", .intV 1), ("orders_oid", .intV 10),
         ("orders_user_id", .intV 1)]⟩] :=
  ⟨applyJoin_eq_filterMap, rfl⟩


theorem comparableB_symm (a b : Value) : comparableB a b = comparableB b a := by
  cases a <;> cases b <;> rfl

theorem pyLt_error_of_incomparable (a b : Value) (h : comparableB a b = false) :
    pyLt a b = .error .typeErr := by
  cases a <;> cases b <;> simp_all [pyLt, comparableB, numView, isStr]

theorem pyLe_error_of_incomparable (a b : Value) (h : comparableB a b = false) :
    pyLe a b = .error .typeErr := by
  cases a <;> cases b <;> simp_all [pyLe, comparableB, numView, isStr]

/-- An unresolved column reference resolves to None. -/
theorem resolveOperand_unresolved (r : Row) (s : String)
    (h : alistGet r.data s = none) : resolveOperand r (.colRef s) = Value.nullV := by
  simp [resolveOperand, Row.get, h]

/-- None admits no order comparison with any value. -/
theorem comparableB_nullV (v : Value) : comparableB Value.nullV v = false := by
  cases v <;> rfl

/-- C9 amended: predicate evaluation returns a typed error exactly for the
four ordering operators on incomparable resolved values (and an
unresolved column reference resolves to None, which is incomparable with
every value); for = and != the evaluation always returns a boolean —
Python == is total, an unresolved reference simply compares as None. -/
theorem c9_predicate_error_modes :
    (∀ (r : Row) (c : Condition), c.operator = "=" ∨ c.operator = "!=" →
      ∃ b, matchesConditionExec r c = .ok b) ∧
    (∀ (r : Row) (c : Condition),
      (c.operator = ">" ∨ c.operator = "<" ∨ c.operator = ">=" ∨ c.operator = "<=") →
      comparableB (resolveOperand r c.left) (resolveOperand r c.right) = false →
      matchesConditionExec r c = .error .typeErr) ∧
    (∀ (r : Row) (s : String) (v : Value), alistGet r.data s = none →
      comparableB (resolveOperand r (.colRef s)) v = false) := by
  refine ⟨?_, ?_, ?_⟩
  · intro r c hop
    rcases hop with h | h
    · exact ⟨pyEq (resolveOperand r c.left) (resolveOperand r c.right),
        by simp [matchesConditionExec, evalComparison, h]⟩
    · exact ⟨!pyEq (resolveOperand r c.left) (resolveOperand r c.right),
        by simp [matchesConditionExec, evalComparison, h]⟩
  · intro r c hop hinc
    rcases hop with h | h | h | h <;>
      simp only [matchesConditionExec, evalComparison, h] <;> norm_num
    · exact pyLt_error_of_incomparable _ _ ((comparableB_symm _ _).trans hinc)
    · exact pyLt_error_of_incomparable _ _ hinc
    · exact pyLe_error_of_incomparable _ _ ((comparableB_symm _ _).trans hinc)
    · exact pyLe_error_of_incomparable _ _ hinc
  · intro r s v h
    rw [resolveOperand_unresolved r s h]
    exact comparableB_nullV v

/-- C9 amended witness: at the concrete row {x: 1}, the unresolved
reference y under = evaluates to a boolean, and under > it fails with the
typed comparison error. -/
theorem c9_predicate_error_modes_witness :
    (∃ b, matchesConditionExec c9_row c9_cond = .ok b) ∧
    matchesConditionExec c9_row ⟨.colRef "y", ">", .lit (.intV 5)⟩ = .error .typeErr :=
  ⟨c9_predicate_error_modes.1 c9_row c9_cond (Or.inl rfl),
   c9_predicate_error_modes.2.1 c9_row ⟨.colRef "y", ">", .lit (.intV 5)⟩
     (Or.inl rfl) (by rfl)⟩


/-- Unfolding equation of the update loop on a row cons cell. -/
theorem updateRows_cons (s : TableSchema) (asg : List (String × Value))
    (cond : Option Condition) (r : Row) (rest : List Row) :
    updateRows s asg cond (r :: rest) =
      match rowMatchesT r cond with
      | .error e => (r :: rest, .error e)
      | .ok false =>
        (r :: (updateRows s asg cond rest).1, (updateRows s asg cond rest).2)
      | .ok true =>
        match validateRow s (applyAssignments r asg) with
        | .error e => (applyAssignments r asg :: rest, .error e)
        | .ok _ =>
          (applyAssignments r asg :: (updateRows s asg cond rest).1,
           (updateRows s asg cond rest).2.map (fun n => n + 1)) := rfl

/-- Success form of Table.update: when the predicate evaluates on every
row and every matching row re-validates after the assignments, the rows
come back with the assignments applied to exactly the matching rows (in
table order) and the count is the number of matching rows. -/
theorem updateRows_ok (s : TableSchema) (asg : List (String × Value))
    (cond : Option Condition) (rows : List Row)
    (hm : ∀ r ∈ rows, ∃ b, rowMatchesT r cond = .ok b)
    (hv : ∀ r ∈ rows, rowMatchedB cond r = true →
      validateRow s (applyAssignments r asg) = .ok ()) :
    updateRows s asg cond rows =
      (rows.map (fun r => if rowMatchedB cond r then applyAssignments r asg else r),
       .ok ((rows.countP (fun r => rowMatchedB cond r) : Nat) : Int)) := by
  induction rows with
  | nil => rfl
  | cons r rest ih =>
    obtain ⟨b, hb⟩ := hm r (List.mem_cons_self r rest)
    have hmB : rowMatchedB cond r = b := by simp [rowMatchedB, hb]
    have ihh := ih (fun r2 h2 => hm r2 (List.mem_cons_of_mem r h2))
      (fun r2 h2 => hv r2 (List.mem_cons_of_mem r h2))
    cases b with
    | false =>
      rw [updateRows_cons, hb]
      dsimp only
      rw [ihh]
      simp [hmB, List.countP_cons]
    | true =>
      have hval := hv r (List.mem_cons_self r rest) hmB
      rw [updateRows_cons, hb]
      dsimp only
      rw [hval]
      dsimp only
      rw [ihh]
      simp [hmB, List.countP_cons, Except.map]

/-- Failure form of Table.update: when the predicate evaluates on every
row but the loop raises, the raise came from re-validating some matching
row, every earlier matching row keeps its applied assignments (no
statement-level rollback), the failing row itself is left mutated, and
the rows after it are untouched. -/
theorem updateRows_error (s : TableSchema) (asg : List (String × Value))
    (cond : Option Condition) (rows : List Row)
    (hm : ∀ r ∈ rows, ∃ b, rowMatchesT r cond = .ok b) (e : PyErr)
    (he : (updateRows s asg cond rows).2 = .error e) :
    ∃ pre bad post, rows = pre ++ bad :: post ∧
      rowMatchedB cond bad = true ∧
      validateRow s (applyAssignments bad asg) = .error e ∧
      (∀ r ∈ pre, rowMatchedB cond r = true →
        validateRow s (applyAssignments r asg) = .ok ()) ∧
      (updateRows s asg cond rows).1 =
        pre.map (fun r => if rowMatchedB cond r then applyAssignments r asg else r) ++
          applyAssignments bad asg :: post := by
  induction rows with
  | nil => simp [updateRows] at he
  | cons r rest ih =>
    obtain ⟨b, hb⟩ := hm r (List.mem_cons_self r rest)
    have hmB : rowMatchedB cond r = b := by simp [rowMatchedB, hb]
    have hmrest := fun r2 h2 => hm r2 (List.mem_cons_of_mem r h2)
    cases b with
    | false =>
      have heq : updateRows s asg cond (r :: rest) =
          (r :: (updateRows s asg cond rest).1, (updateRows s asg cond rest).2) := by
        rw [updateRows_cons, hb]
      rw [heq] at he
      obtain ⟨pre, bad, post, hsplit, hbadm, hbadv, hprev, hrows⟩ := ih hmrest he
      refine ⟨r :: pre, bad, post, by rw [List.cons_append, hsplit], hbadm, hbadv, ?_, ?_⟩
      · intro r2 h2 hmr2
        rcases List.mem_cons.mp h2 with hh | hh
        · subst hh
          rw [hmB] at hmr2
          cases hmr2
        · exact hprev r2 hh hmr2
      · rw [heq]
        dsimp only
        rw [hrows, List.map_cons, hmB]
        simp
    | true =>
      cases hval : validateRow s (applyAssignments r asg) with
      | error e0 =>
        have heq : updateRows s asg cond (r :: rest) =
            (applyAssignments r asg :: rest, .error e0) := by
          rw [updateRows_cons, hb]
          dsimp only
          rw [hval]
        rw [heq] at he
        dsimp only at he
        injection he with he2
        subst he2
        refine ⟨[], r, rest, rfl, hmB, hval, ?_, ?_⟩
        · intro r2 h2
          cases h2
        · rw [heq]
          simp
      | ok u =>
        cases u
        have heq : updateRows s asg cond (r :: rest) =
            (applyAssignments r asg :: (updateRows s asg cond rest).1,
             (updateRows s asg cond rest).2.map (fun n => n + 1)) := by
          rw [updateRows_cons, hb]
          dsimp only
          rw [hval]
        rw [heq] at he
        dsimp only at he
        have he2 : (updateRows s asg cond rest).2 = .error e := by
          cases hres : (updateRows s asg cond rest).2 with
          | ok n => rw [hres] at he; cases he
          | error e3 =>
            rw [hres] at he
            injection he with he3
            subst he3
            rfl
        obtain ⟨pre, bad, post, hsplit, hbadm, hbadv, hprev, hrows⟩ := ih hmrest he2
        refine ⟨r :: pre, bad, post, by rw [List.cons_append, hsplit], hbadm, hbadv, ?_, ?_⟩
        · intro r2 h2 hmr2
          rcases List.mem_cons.mp h2 with hh | hh
          · subst hh
            exact hval
          · exact hprev r2 hh hmr2
        · rw [heq]
          dsimp only
          rw [hrows, List.map_cons, hmB]
          simp

/-- C7: Table.update applies the assignments to each row satisfying the
predicate (all rows when it is absent), in table order, re-validating
each mutated row; when no re-validation fails the result is the mutated
row list and the count of rows touched; when re-validation fails on some
row the error propagates, every earlier mutated row remains mutated (no
statement-level rollback), the failing row itself keeps the applied
assignments, and later rows are untouched.  The hypothesis that the
predicate itself evaluates on every row separates predicate errors, which
the claim does not speak about, from validation errors. -/
theorem c7_update_in_order_no_rollback (s : TableSchema) (asg : List (String × Value))
    (cond : Option Condition) (rows : List Row)
    (hm : ∀ r ∈ rows, ∃ b, rowMatchesT r cond = .ok b) :
    ( (∀ r ∈ rows, rowMatchedB cond r = true →
        validateRow s (applyAssignments r asg) = .ok ()) →
      updateRows s asg cond rows =
        (rows.map (fun r => if rowMatchedB cond r then applyAssignments r asg else r),
         .ok ((rows.countP (fun r => rowMatchedB cond r) : Nat) : Int)) ) ∧
    (∀ e, (updateRows s asg cond rows).2 = .error e →
      ∃ pre bad post, rows = pre ++ bad :: post ∧
        rowMatchedB cond bad = true ∧
        validateRow s (applyAssignments bad asg) = .error e ∧
        (∀ r ∈ pre, rowMatchedB cond r = true →
          validateRow s (applyAssignments r asg) = .ok ()) ∧
        (updateRows s asg cond rows).1 =
          pre.map (fun r => if rowMatchedB cond r then applyAssignments r asg else r) ++
            applyAssignments bad asg :: post) :=
  ⟨fun hv => updateRows_ok s asg cond rows hm hv,
   fun e he => updateRows_error s asg cond rows hm e he⟩

/-- C7 witness: on the two-row scenario with no predicate, updating a to 5
succeeds on the first row and fails re-validation on the second (b holds
a str in an INT column); the failure decomposition applies with the first
row remaining mutated; on the one-row table the update returns the
mutated row and count 1. -/
theorem c7_update_in_order_no_rollback_witness :
    updateRows c7_schema c7_asg none [(⟨[("a", .intV 1)]⟩ : Row)] =
      ([(⟨[("a", .intV 5)]⟩ : Row)].map
        (fun r => if rowMatchedB none r then applyAssignments r c7_asg else r),
       .ok ((([(⟨[("a", .intV 5)]⟩ : Row)].countP (fun r => rowMatchedB none r) : Nat) : Int))) ∧
    (∃ pre bad post, c7_rows = pre ++ bad :: post ∧
      rowMatchedB none bad = true ∧
      validateRow c7_schema (applyAssignments bad c7_asg) = .error (.typeMismatch "b") ∧
      (∀ r ∈ pre, rowMatchedB none r = true →
        validateRow c7_schema (applyAssignments r c7_asg) = .ok ()) ∧
      (updateRows c7_schema c7_asg none c7_rows).1 =
        pre.map (fun r => if rowMatchedB none r then applyAssignments r c7_asg else r) ++
          applyAssignments bad c7_asg :: post) := by
  constructor
  · have h := (c7_update_in_order_no_rollback c7_schema c7_asg none
        [(⟨[("a", .intV 1)]⟩ : Row)] (by intro r hr; exact ⟨true, rfl⟩)).1
      (by
        intro r hr h2
        simp only [List.mem_singleton] at hr
        subst hr
        rfl)
    rw [h]
    rfl
  · exact (c7_update_in_order_no_rollback c7_schema c7_asg none c7_rows
      (by intro r hr; exact ⟨true, rfl⟩)).2 (.typeMismatch "b") (by rfl)


theorem insertTableAfterId_next_ge (t : Table) (r : Row) :
    t.next_row_id ≤ (insertTableAfterId t r).next_row_id := by
  unfold insertTableAfterId
  split
  · exact le_refl _
  · simp

/-- Table.insert never decreases the counter. -/
theorem insert_next_ge (t : Table) (r : Row) :
    t.next_row_id ≤ (t.insert r).1.next_row_id := by
  unfold Table.insert
  cases hv : validateRow t.schema r with
  | error e => exact le_refl _
  | ok u =>
    dsimp only
    cases hu : checkUniqueCols (insertTableAfterId t r).rows (insertRowWithId t r)
        (insertTableAfterId t r).schema.columns with
    | error e => exact insertTableAfterId_next_ge t r
    | ok u2 => exact insertTableAfterId_next_ge t r

/-- A successful insert of a row without a row_id consumes exactly one
counter value. -/
theorem insert_ok_next (t : Table) (r : Row)
    (hno : alistGet r.data "row_id" = none) (v : Value)
    (hok : (t.insert r).2 = .ok v) :
    (t.insert r).1.next_row_id = t.next_row_id + 1 := by
  unfold Table.insert at hok ⊢
  cases hv : validateRow t.schema r with
  | error e =>
    rw [hv] at hok
    exact absurd hok (by simp)
  | ok u =>
    rw [hv] at hok
    dsimp only at hok ⊢
    cases hu : checkUniqueCols (insertTableAfterId t r).rows (insertRowWithId t r)
        (insertTableAfterId t r).schema.columns with
    | error e =>
      rw [hu] at hok
      exact absurd hok (by simp)
    | ok u2 =>
      dsimp only
      exact insertTableAfterId_next_of_none t r hno

/-- Table.delete leaves the counter alone. -/
theorem delete_preserves_next (t : Table) (c : Option Condition) (t2 : Table) (n : Int)
    (h : t.delete c = .ok (t2, n)) : t2.next_row_id = t.next_row_id := by
  cases c with
  | none =>
    simp only [Table.delete] at h
    injection h with hh
    injection hh with h1 h2
    rw [← h1]
  | some c2 =>
    simp only [Table.delete] at h
    cases hk : filterNotMatching c2 t.rows with
    | error e => rw [hk] at h; cases h
    | ok kept =>
      rw [hk] at h
      injection h with hh
      injection hh with h1 h2
      rw [← h1]

/-- Unfolding equation of runOps on an insert op. -/
theorem runOps_ins (t : Table) (r : Row) (rest : List TableOp) :
    runOps t (.ins r :: rest) =
      ((runOps (t.insert r).1 rest).1,
       (match (t.insert r).2 with
        | .ok (.intV k) => [k]
        | _ => []) ++ (runOps (t.insert r).1 rest).2) := rfl

/-- Unfolding equation of runOps on a delete op. -/
theorem runOps_del (t : Table) (c : Option Condition) (rest : List TableOp) :
    runOps t (.del c :: rest) =
      match t.delete c with
      | .error _ => runOps t rest
      | .ok r => runOps r.1 rest := rfl

/-- C6 amended: over any sequence of inserts (of rows without pre-existing
row ids) and deletes on one in-memory table, the row ids assigned by the
successful inserts are strictly increasing in assignment order — hence
unique and never reused within the table object — and all of them are at
least the starting counter value.  (Across a save/load round trip this
does NOT extend to ids above every surviving id: the recorded
counterexample shows load_from_disk restores next_row_id to
max(surviving ids) + 1 and the deleted id 2 is reassigned.) -/
theorem c6_assigned_row_ids_increasing (ops : List TableOp) (t : Table)
    (h : ∀ r, TableOp.ins r ∈ ops → alistGet r.data "row_id" = none) :
    List.Chain' (· < ·) (runOps t ops).2 ∧
    ∀ k ∈ (runOps t ops).2, t.next_row_id ≤ k := by
  induction ops generalizing t with
  | nil => simp [runOps]
  | cons op rest ih =>
    cases op with
    | del c =>
      have hrest : ∀ r, TableOp.ins r ∈ rest → alistGet r.data "row_id" = none :=
        fun r hr => h r (List.mem_cons_of_mem _ hr)
      rw [runOps_del]
      cases hd : t.delete c with
      | error e => exact ih t hrest
      | ok r2 =>
        have hnext := delete_preserves_next t c r2.1 r2.2 (by rw [hd])
        have ihh := ih r2.1 hrest
        exact ⟨ihh.1, fun k hk => by rw [← hnext]; exact ihh.2 k hk⟩
    | ins r =>
      have hr := h r (List.mem_cons_self _ _)
      have hrest : ∀ r2, TableOp.ins r2 ∈ rest → alistGet r2.data "row_id" = none :=
        fun r2 hr2 => h r2 (List.mem_cons_of_mem _ hr2)
      have ihh := ih (t.insert r).1 hrest
      have hge := insert_next_ge t r
      rw [runOps_ins]
      cases hres : (t.insert r).2 with
      | error e =>
        dsimp only
        exact ⟨ihh.1, fun k hk => le_trans hge (ihh.2 k hk)⟩
      | ok v =>
        have hv := insert_assigned_id t r hr v hres
        subst hv
        have hnext := insert_ok_next t r hr _ hres
        dsimp only
        rw [List.singleton_append]
        constructor
        · rw [List.chain'_cons']
          constructor
          · intro y hy
            have hmem := List.mem_of_mem_head? hy
            have := ihh.2 y hmem
            rw [hnext] at this
            omega
          · exact ihh.1
        · intro k hk
          rcases List.mem_cons.mp hk with hh | hh
          · omega
          · have := ihh.2 k hh
            omega

/-- C6 amended witness: two fresh inserts then a delete assign the ids
[1, 2], which are strictly increasing and at least the starting counter
value 1. -/
theorem c6_assigned_row_ids_increasing_witness :
    List.Chain' (· < ·)
      (runOps (Table.new c6_schema)
        [.ins ⟨[("a", .intV 10)]⟩, .ins ⟨[("a", .intV 20)]⟩, .del (some c6_cond)]).2 ∧
    ∀ k ∈ (runOps (Table.new c6_schema)
        [.ins ⟨[("a", .intV 10)]⟩, .ins ⟨[("a", .intV 20)]⟩, .del (some c6_cond)]).2,
      (Table.new c6_schema).next_row_id ≤ k := by
  apply c6_assigned_row_ids_increasing
  intro r hr
  simp only [List.mem_cons, List.not_mem_nil, or_false] at hr
  rcases hr with h | h | h
  · rw [TableOp.ins.injEq] at h
    subst h
    rfl
  · rw [TableOp.ins.injEq] at h
    subst h
    rfl
  · cases h


/-! String and file-name lemmas for the persistence round trip. -/

theorem toList_append (a b : String) : (a ++ b).toList = a.toList ++ b.toList :=
  String.data_append a b

theorem stripSchemaF_nil (fuel : Nat) : stripSchemaF fuel [] = [] := by
  cases fuel <;> rfl

theorem take_append_of_le_len (l1 l2 : List Char) (n : Nat) (h : n ≤ l1.length) :
    (l1 ++ l2).take n = l1.take n := by
  rw [List.take_append_eq_append_take]
  have h0 : n - l1.length = 0 := by omega
  rw [h0, List.take_zero, List.append_nil]

theorem hasInfixB_of_isPrefixOf (pat l : List Char) (hne : l ≠ [])
    (h : pat.isPrefixOf l = true) : hasInfixB pat l = true := by
  cases l with
  | nil => exact absurd rfl hne
  | cons c rest => simp [hasInfixB, h]

/-- The pattern "_schema.json" cannot properly overlap a copy of itself:
if it is a prefix of l ++ pattern then either l is empty or the pattern
already occurs inside l.  (The middle case, where l would be a nonempty
proper prefix period of the pattern, is refuted by enumerating the 11
candidate period lengths.) -/
theorem schemaSuffix_overlap (l : List Char)
    (h : schemaSuffix.isPrefixOf (l ++ schemaSuffix) = true) :
    l = [] ∨ hasInfixB schemaSuffix l = true := by
  by_cases hl : l = []
  · exact Or.inl hl
  · right
    have hpre : schemaSuffix <+: (l ++ schemaSuffix) := List.isPrefixOf_iff_prefix.mp h
    have htake : schemaSuffix = (l ++ schemaSuffix).take 12 := by
      have h2 := List.prefix_iff_eq_take.mp hpre
      rw [show schemaSuffix.length = 12 from rfl] at h2
      exact h2
    by_cases hlen : 12 ≤ l.length
    · have h2 : (l ++ schemaSuffix).take 12 = l.take 12 :=
        take_append_of_le_len l schemaSuffix 12 hlen
      have hpre2 : schemaSuffix <+: l := by
        rw [htake, h2]
        exact List.take_prefix 12 l
      exact hasInfixB_of_isPrefixOf schemaSuffix l hl (List.isPrefixOf_iff_prefix.mpr hpre2)
    · exfalso
      have hp1 : 1 ≤ l.length := by
        have := List.length_pos.mpr hl
        omega
      have hp2 : l.length < 12 := by omega
      have hper : schemaSuffix = l ++ schemaSuffix.take (12 - l.length) := by
        conv_lhs => rw [htake]
        rw [List.take_append_eq_append_take,
            List.take_of_length_le (show l.length ≤ 12 by omega)]
      have hlpre : l <+: schemaSuffix := ⟨schemaSuffix.take (12 - l.length), hper.symm⟩
      have hleq : l = schemaSuffix.take l.length := List.prefix_iff_eq_take.mp hlpre
      have hfin : ∀ k : Fin 12, 1 ≤ k.val →
          schemaSuffix ≠ schemaSuffix.take k.val ++ schemaSuffix.take (12 - k.val) := by decide
      have hgoal : schemaSuffix = schemaSuffix.take l.length ++ schemaSuffix.take (12 - l.length) :=
        hper.trans (congrArg (fun z => z ++ schemaSuffix.take (12 - l.length)) hleq)
      exact hfin ⟨l.length, hp2⟩ hp1 hgoal

/-- Removing every occurrence of "_schema.json" from name ++
"_schema.json" gives back the name, provided the pattern does not occur
inside the name. -/
theorem stripSchemaF_append (l : List Char) (h : hasInfixB schemaSuffix l = false) :
    ∀ fuel, (l ++ schemaSuffix).length ≤ fuel → stripSchemaF fuel (l ++ schemaSuffix) = l := by
  induction l with
  | nil =>
    intro fuel hf
    rw [List.nil_append]
    have hf2 : 12 ≤ fuel := by
      have h12 : (([] : List Char) ++ schemaSuffix).length = 12 := rfl
      omega
    cases fuel with
    | zero => omega
    | succ f =>
      show stripSchemaF (f + 1) ('_' :: "schema.json".toList) = []
      simp only [stripSchemaF]
      rw [if_pos (by decide)]
      rw [show List.drop 11 "schema.json".toList = [] from rfl]
      exact stripSchemaF_nil f
  | cons c l2 ih =>
    intro fuel hf
    have hsplit : schemaSuffix.isPrefixOf (c :: l2) = false ∧ hasInfixB schemaSuffix l2 = false := by
      simpa [hasInfixB] using h
    have hnp : schemaSuffix.isPrefixOf ((c :: l2) ++ schemaSuffix) = false := by
      cases hb : schemaSuffix.isPrefixOf ((c :: l2) ++ schemaSuffix) with
      | false => rfl
      | true =>
        rcases schemaSuffix_overlap (c :: l2) hb with h1 | h1
        · cases h1
        · rw [h1] at h
          cases h
    cases fuel with
    | zero => simp at hf
    | succ f =>
      show stripSchemaF (f + 1) (c :: (l2 ++ schemaSuffix)) = c :: l2
      simp only [stripSchemaF]
      rw [if_neg (by simp [show schemaSuffix.isPrefixOf (c :: (l2 ++ schemaSuffix)) = false from hnp])]
      rw [ih hsplit.2 f (by
        simp only [List.cons_append, List.length_cons, List.length_append] at hf ⊢
        omega)]

/-- pyReplaceSchema undoes the schema-file naming for clean names. -/
theorem pyReplaceSchema_append (n : String) (h : hasInfixB schemaSuffix n.toList = false) :
    pyReplaceSchema (n ++ "_schema.json") = n := by
  unfold pyReplaceSchema
  have hdata : (n ++ "_schema.json").toList = n.toList ++ schemaSuffix := toList_append n _
  rw [hdata, stripSchemaF_append n.toList h _ (le_refl _)]
  rfl

theorem endsWithB_schema_name (n : String) :
    endsWithB (n ++ "_schema.json") "_schema.json" = true := by
  unfold endsWithB
  rw [toList_append, List.reverse_append]
  exact List.isPrefixOf_iff_prefix.mpr ⟨n.toList.reverse, rfl⟩

theorem endsWithB_rows_name (n : String) :
    endsWithB (n ++ "_rows.json") "_schema.json" = false := by
  unfold endsWithB
  rw [toList_append, List.reverse_append]
  cases hb : ("_schema.json".toList.reverse).isPrefixOf
      ("_rows.json".toList.reverse ++ n.toList.reverse) with
  | false => rfl
  | true =>
    exfalso
    have hpre := List.isPrefixOf_iff_prefix.mp hb
    have htake := List.prefix_iff_eq_take.mp hpre
    rw [show ("_schema.json".toList.reverse).length = 12 from rfl] at htake
    rw [List.take_append_eq_append_take,
        List.take_of_length_le (by decide)] at htake
    have hpre2 : "_rows.json".toList.reverse <+: "_schema.json".toList.reverse :=
      ⟨n.toList.reverse.take (12 - "_rows.json".toList.reverse.length), htake.symm⟩
    have h2 := List.prefix_iff_eq_take.mp hpre2
    exact absurd h2 (by decide)

theorem schema_name_ne_rows_name (m n : String) :
    m ++ "_schema.json" ≠ n ++ "_rows.json" := by
  intro heq
  have hd : m.data ++ "_schema.json".data = n.data ++ "_rows.json".data := by
    rw [← String.data_append, ← String.data_append, heq]
  have hrev := congrArg List.reverse hd
  rw [List.reverse_append, List.reverse_append] at hrev
  have h6 := congrArg (List.take 6) hrev
  rw [take_append_of_le_len _ _ 6 (by decide), take_append_of_le_len _ _ 6 (by decide)] at h6
  exact absurd h6 (by decide)

theorem rows_name_inj (m n : String) (h : m ++ "_rows.json" = n ++ "_rows.json") : m = n := by
  have hd : m.data ++ "_rows.json".data = n.data ++ "_rows.json".data := by
    rw [← String.data_append, ← String.data_append, h]
  have h2 := List.append_cancel_right hd
  cases m
  cases n
  simp_all


/-! Serialization round-trip lemmas for the persistence layer. -/

theorem dataTypeOfString_value (dt : DataType) : dataTypeOfString dt.value = .ok dt := by
  cases dt <;> rfl

theorem constraintOfString_value (c : ConstraintType) : constraintOfString c.value = .ok c := by
  cases c <;> rfl

theorem parseConstraints_roundtrip (cs : List ConstraintType) :
    parseConstraints (cs.map ConstraintType.value) = .ok cs := by
  induction cs with
  | nil => rfl
  | cons c rest ih =>
    rw [List.map_cons]
    simp only [parseConstraints, constraintOfString_value, ih]
    rfl

theorem parseColumns_roundtrip (cols : List Column) :
    parseColumns (cols.map columnToDisk) = .ok cols := by
  induction cols with
  | nil => rfl
  | cons c rest ih =>
    rw [List.map_cons]
    simp only [parseColumns, columnToDisk, dataTypeOfString_value,
      parseConstraints_roundtrip, ih]
    rfl

/-- Unfolding equation of the row-loading loop. -/
theorem loadRowsFold_cons (d : Dict) (rest : List Dict) (tbl : Table) :
    loadRowsFold (d :: rest) tbl =
      (match alistGet d "row_id" with
       | none => loadRowsFold rest ⟨tbl.schema, tbl.rows ++ [⟨d⟩], tbl.next_row_id⟩
       | some (.intV k) =>
         loadRowsFold rest
           (if k ≥ tbl.next_row_id then ⟨tbl.schema, tbl.rows ++ [⟨d⟩], k + 1⟩
            else ⟨tbl.schema, tbl.rows ++ [⟨d⟩], tbl.next_row_id⟩)
       | some (.boolV b) =>
         loadRowsFold rest
           (if (if b then (1 : Int) else 0) ≥ tbl.next_row_id then
              ⟨tbl.schema, tbl.rows ++ [⟨d⟩], (if b then (1 : Int) else 0) + 1⟩
            else ⟨tbl.schema, tbl.rows ++ [⟨d⟩], tbl.next_row_id⟩)
       | some _ => .error .typeErr) := rfl

/-- The row-loading loop, on rows whose row ids are integers, appends the
rows in order and recomputes the counter by nextFromRows. -/
theorem loadRowsFold_ok (rds : List Dict) :
    ∀ tbl : Table,
    (∀ d ∈ rds, ∀ v, alistGet d "row_id" = some v → ∃ k : Int, v = Value.intV k) →
    loadRowsFold rds tbl =
      .ok ⟨tbl.schema, tbl.rows ++ rds.map (fun d => (⟨d⟩ : Row)),
           nextFromRows rds tbl.next_row_id⟩ := by
  induction rds with
  | nil =>
    intro tbl _
    simp [loadRowsFold, nextFromRows]
  | cons d rest ih =>
    intro tbl hrid
    have hd := hrid d (List.mem_cons_self d rest)
    have hrest := fun d2 h2 => hrid d2 (List.mem_cons_of_mem d h2)
    rw [loadRowsFold_cons]
    cases hget : alistGet d "row_id" with
    | none =>
      rw [ih _ hrest]
      simp [nextFromRows, hget]
    | some v =>
      obtain ⟨k, hk⟩ := hd v hget
      subst hk
      dsimp only
      by_cases hge : k ≥ tbl.next_row_id
      · rw [if_pos hge, ih _ hrest]
        simp [nextFromRows, hget, hge]
      · rw [if_neg hge, ih _ hrest]
        simp [nextFromRows, hget, hge]

theorem alistSet_fresh {α : Type} (acc : List (String × α)) (n : String) (v : α)
    (h : alistGet acc n = none) : alistSet acc n v = acc ++ [(n, v)] := by
  induction acc with
  | nil => rfl
  | cons hd tl ih =>
    obtain ⟨k, w⟩ := hd
    by_cases hk : k = n
    · simp [alistGet, hk] at h
    · simp only [alistGet, hk, if_false] at h
      simp [alistSet, hk, ih h]

theorem alistGet_append_none {α : Type} (acc : List (String × α)) (n2 : String) (v : α)
    (m : String) (hm : m ≠ n2) (h : alistGet acc m = none) :
    alistGet (acc ++ [(n2, v)]) m = none := by
  induction acc with
  | nil => simp [alistGet, Ne.symm hm]
  | cons hd tl ih =>
    obtain ⟨k, w⟩ := hd
    by_cases hk : k = m
    · simp [alistGet, hk] at h
    · simp only [alistGet, hk, if_false] at h
      simp [alistGet, hk, ih h]

/-- Unfolding equation of save_to_disk on a registry cons cell. -/
theorem saveToDisk_cons (p : String × Table) (rest : List (String × Table)) :
    saveToDisk (p :: rest) =
      (p.1 ++ "_schema.json",
        DiskFile.schemaFile p.2.schema.name (p.2.schema.columns.map columnToDisk)
          p.2.schema.primary_key) ::
      (p.1 ++ "_rows.json", DiskFile.rowsFile (p.2.rows.map Row.data)) ::
      saveToDisk rest := rfl

/-- In a saved directory with distinct table names, the rows file of a
registered table is found under its name. -/
theorem save_lookup_rows (tables : List (String × Table)) (n : String) (t : Table)
    (hnd : (tables.map Prod.fst).Nodup) (hmem : (n, t) ∈ tables) :
    alistGet (saveToDisk tables) (n ++ "_rows.json") =
      some (.rowsFile (t.rows.map Row.data)) := by
  induction tables with
  | nil => cases hmem
  | cons p rest ih =>
    obtain ⟨m, u⟩ := p
    rw [saveToDisk_cons]
    rw [show alistGet
        ((m ++ "_schema.json",
          DiskFile.schemaFile u.schema.name (u.schema.columns.map columnToDisk)
            u.schema.primary_key) ::
         (m ++ "_rows.json", DiskFile.rowsFile (u.rows.map Row.data)) :: saveToDisk rest)
        (n ++ "_rows.json") =
      if m ++ "_rows.json" = n ++ "_rows.json" then some (DiskFile.rowsFile (u.rows.map Row.data))
      else alistGet (saveToDisk rest) (n ++ "_rows.json") from by
        simp [alistGet, schema_name_ne_rows_name m n]]
    by_cases hmn : m = n
    · subst hmn
      rw [if_pos rfl]
      rcases List.mem_cons.mp hmem with hh | hh
      · injection hh with h1 h2
        subst h2
        rfl
      · exfalso
        have : m ∈ rest.map Prod.fst := List.mem_map.mpr ⟨(m, t), hh, rfl⟩
        exact (List.nodup_cons.mp hnd).1 this
    · rw [if_neg (fun hc => hmn (rows_name_inj m n hc))]
      rcases List.mem_cons.mp hmem with hh | hh
      · injection hh with h1 h2
        exact absurd h1.symm hmn
      · exact ih (List.nodup_cons.mp hnd).2 hh


theorem exceptBind_ok {α β : Type} (a : α) (f : α → Except PyErr β) :
    (Except.ok a >>= f) = f a := rfl

/-- Loading one table back from a saved directory with distinct clean
names reproduces its schema and rows, with the counter recomputed. -/
theorem loadOneTable_ok (tables : List (String × Table)) (n : String) (t : Table)
    (hnd : (tables.map Prod.fst).Nodup) (hmem : (n, t) ∈ tables)
    (hrid : ∀ r ∈ t.rows, ∀ v, alistGet r.data "row_id" = some v →
      ∃ k : Int, v = Value.intV k) :
    loadOneTable (saveToDisk tables) n t.schema.name (t.schema.columns.map columnToDisk)
      t.schema.primary_key = .ok (reloadTable t) := by
  unfold loadOneTable
  rw [parseColumns_roundtrip, exceptBind_ok]
  rw [save_lookup_rows tables n t hnd hmem]
  dsimp only
  rw [loadRowsFold_ok (t.rows.map Row.data) _ (by
    intro d hd v hv
    obtain ⟨r, hrmem, hre⟩ := List.mem_map.mp hd
    exact hrid r hrmem v (by rw [hre]; exact hv))]
  have hrows : (t.rows.map Row.data).map (fun d => (⟨d⟩ : Row)) = t.rows := by
    rw [List.map_map]
    have hcomp : ((fun d => (⟨d⟩ : Row)) ∘ Row.data) = id := funext (fun r => rfl)
    rw [hcomp, List.map_id]
  dsimp only [reloadTable]
  rw [List.nil_append, hrows]

/-- Unfolding equation of the directory scan on a file cons cell. -/
theorem loadFiles_cons (all : List (String × DiskFile)) (fname : String)
    (content : DiskFile) (rest : List (String × DiskFile)) (acc : List (String × Table)) :
    loadFiles all ((fname, content) :: rest) acc =
      if endsWithB fname "_schema.json" then
        match content with
        | .rowsFile _ => .error .typeErr
        | .schemaFile nm colsD pk =>
          loadOneTable all (pyReplaceSchema fname) nm colsD pk >>= fun tbl =>
            loadFiles all rest (alistSet acc (pyReplaceSchema fname) tbl)
      else loadFiles all rest acc := rfl

/-- The directory scan over the files saved for a suffix of the registry,
run against the whole saved directory, appends the reloaded tables to the
accumulator in registry order. -/
theorem loadFiles_save (tables : List (String × Table))
    (hnd : (tables.map Prod.fst).Nodup)
    (hrid : ∀ p ∈ tables, ∀ r ∈ p.2.rows, ∀ v, alistGet r.data "row_id" = some v →
      ∃ k : Int, v = Value.intV k) :
    ∀ (suffix : List (String × Table)) (acc : List (String × Table)),
    (∀ p ∈ suffix, p ∈ tables) →
    ((suffix.map Prod.fst).Nodup) →
    (∀ n ∈ suffix.map Prod.fst, hasInfixB schemaSuffix n.toList = false) →
    (∀ n ∈ suffix.map Prod.fst, alistGet acc n = none) →
    loadFiles (saveToDisk tables) (saveToDisk suffix) acc =
      .ok (acc ++ suffix.map (fun p => (p.1, reloadTable p.2))) := by
  intro suffix
  induction suffix with
  | nil =>
    intro acc _ _ _ _
    simp [saveToDisk, loadFiles]
  | cons p rest ih =>
    intro acc hsub hndsuf hname hacc
    obtain ⟨n, t⟩ := p
    have hnmem : (n, t) ∈ tables := hsub (n, t) (List.mem_cons_self _ _)
    have hn_name : hasInfixB schemaSuffix n.toList = false :=
      hname n (List.mem_cons_self _ _)
    rw [saveToDisk_cons]
    rw [loadFiles_cons, if_pos (endsWithB_schema_name n)]
    dsimp only
    simp only [pyReplaceSchema_append n hn_name]
    rw [loadOneTable_ok tables n t hnd hnmem
      (fun r hr v hv => hrid (n, t) hnmem r hr v hv)]
    rw [exceptBind_ok]
    rw [loadFiles_cons, if_neg (by rw [endsWithB_rows_name n]; exact Bool.false_ne_true)]
    have hfresh : alistGet acc n = none := hacc n (List.mem_cons_self _ _)
    rw [alistSet_fresh acc n (reloadTable t) hfresh]
    have hndsuf2 : (n :: rest.map Prod.fst).Nodup := by
      rw [List.map_cons] at hndsuf
      exact hndsuf
    rw [ih (acc ++ [(n, reloadTable t)])
        (fun p2 h2 => hsub p2 (List.mem_cons_of_mem _ h2))
        (List.nodup_cons.mp hndsuf2).2
        (fun n2 h2 => hname n2 (List.mem_cons_of_mem _ h2))
        (fun n2 h2 => by
          have hne : n2 ≠ n := by
            intro he
            subst he
            exact (List.nodup_cons.mp hndsuf2).1 h2
          exact alistGet_append_none acc n (reloadTable t) n2 hne
            (hacc n2 (List.mem_cons_of_mem _ h2)))]
    rw [List.map_cons, List.append_assoc]
    rfl


/-- C5 amended: for every StorageEngine state whose table names are
distinct and do not contain "_schema.json" as a substring, and whose
stored row_id values (where present) are integers, save_to_disk followed
by load_from_disk on the produced directory reproduces the same tables in
registry order — same names, same schemas (columns with types and
constraints, primary_key), same row sequences including each row_id
(next_row_id is recomputed by load and is not compared).  The recorded
counterexample shows the name restriction is necessary: str.replace
removes every occurrence of the pattern from the file name. -/
theorem c5_round_trip_amended (tables : List (String × Table))
    (hnd : (tables.map Prod.fst).Nodup)
    (hname : ∀ n ∈ tables.map Prod.fst, hasInfixB schemaSuffix n.toList = false)
    (hrid : ∀ p ∈ tables, ∀ r ∈ p.2.rows, ∀ v, alistGet r.data "row_id" = some v →
      ∃ k : Int, v = Value.intV k) :
    loadFromDisk (saveToDisk tables) =
      .ok (tables.map (fun p => (p.1, reloadTable p.2))) ∧
    (tables.map (fun p => (p.1, reloadTable p.2))).map tableContent =
      tables.map tableContent := by
  constructor
  · unfold loadFromDisk
    have h := loadFiles_save tables hnd hrid tables []
      (fun p hp => hp) hnd hname (fun n _ => rfl)
    rw [List.nil_append] at h
    exact h
  · have hcomp : tableContent ∘ (fun p : String × Table => (p.1, reloadTable p.2)) =
        tableContent := funext (fun p => rfl)
    rw [List.map_map, hcomp]

/-- C5 amended witness: the one-table users registry satisfies the
hypotheses, and the round trip gives back the users table with its row
and schema intact (next_row_id recomputed to 2). -/
theorem c5_round_trip_amended_witness :
    loadFromDisk (saveToDisk c5_tablesW) =
      .ok (c5_tablesW.map (fun p => (p.1, reloadTable p.2))) ∧
    (c5_tablesW.map (fun p => (p.1, reloadTable p.2))).map tableContent =
      c5_tablesW.map tableContent := by
  apply c5_round_trip_amended c5_tablesW (by decide) (by decide)
  intro p hp r hr v hv
  simp only [c5_tablesW, List.mem_singleton] at hp
  subst hp
  simp only [List.mem_singleton] at hr
  subst hr
  refine ⟨1, ?_⟩
  have : alistGet
      ([("id", Value.intV 1), ("name", Value.strV "a"), ("row_id", Value.intV 1)] : Dict)
      "row_id" = some (Value.intV 1) := rfl
  rw [show (⟨[("id", Value.intV 1), ("name", Value.strV "a"),
      ("row_id", Value.intV 1)]⟩ : Row).data =
    ([("id", Value.intV 1), ("name", Value.strV "a"), ("row_id", Value.intV 1)] : Dict) from rfl]
    at hv
  rw [this] at hv
  injection hv with hv2
  exact hv2.symm

end MiniRDBMS
